import Mathlib

/-!
# Verification of the automaker memory-layer matching and retrieval engine

A shallow embedding of the memory-layer core (`libs/memory-layer/src`):
message normalization and fingerprinting, the similarity engine, the
record store operations and the retrieval orchestration, together with
theorems about the behaviour the documentation describes.

JavaScript strings are modelled as `String` / `List Char`, JavaScript
numbers as `ℚ` (exact rational arithmetic), SQLite tables as Lean lists
inside an explicit database state.  External capabilities (the SHA-256
digest, `Math.sqrt`, the IEEE-754 float32 byte codec) are abstracted as
function parameters; everything else is executable.
-/

deriving instance DecidableEq for Except

namespace Automaker

/-! ## JavaScript character classes and string primitives -/

/-- The `\d` character class of JavaScript regular expressions. -/
def isJsDigit (c : Char) : Bool :=
  decide ('0' ≤ c ∧ c ≤ '9')

/-- ASCII letters (used for the `[A-Z]` class under the `i` flag). -/
def isAsciiLetter (c : Char) : Bool :=
  decide (('a' ≤ c ∧ c ≤ 'z') ∨ ('A' ≤ c ∧ c ≤ 'Z'))

/-- The `\w` character class of JavaScript regular expressions. -/
def isJsWordChar (c : Char) : Bool :=
  isAsciiLetter c || isJsDigit c || decide (c = '_')

/-- The `\s` character class (and the characters removed by `trim`);
modelled on the ASCII white-space characters. -/
def isJsSpace (c : Char) : Bool :=
  decide (c = ' ' ∨ c = '\t' ∨ c = '\n' ∨ c = '\r' ∨
    c = Char.ofNat 11 ∨ c = Char.ofNat 12)

/-- `[0-9a-fA-F]`, the hexadecimal digit class. -/
def isHexDigit (c : Char) : Bool :=
  isJsDigit c || decide (('a' ≤ c ∧ c ≤ 'f') ∨ ('A' ≤ c ∧ c ≤ 'F'))

/-- The `.` class (any character but a line terminator). -/
def isNotNewline (c : Char) : Bool :=
  decide (c ≠ '\n' ∧ c ≠ '\r')

/-- `String.prototype.trim`. -/
def jsTrimList (s : List Char) : List Char :=
  ((s.dropWhile (isJsSpace ·)).reverse.dropWhile (isJsSpace ·)).reverse

/-- `String.prototype.trim` on `String`. -/
def jsTrim (s : String) : String :=
  ⟨jsTrimList s.data⟩

/-- `String.prototype.toLowerCase` (ASCII range). -/
def jsToLower (s : String) : String :=
  ⟨s.data.map Char.toLower⟩

/-! ## A small backtracking regular-expression engine

JavaScript `RegExp` features used by the memory layer: character
classes, sequencing, alternation (leftmost alternative preferred),
greedy counted repetition, word boundaries `\b`, lookahead `(?=…)` and
the end-of-input anchor inside a lookahead.  Matching follows the JS
backtracking order: alternatives left to right, repetitions longest
first, and a repetition stops once an iteration consumes nothing. -/

inductive RE where
  | emp : RE
  | cls : (Char → Bool) → RE
  | seq : RE → RE → RE
  | alt : RE → RE → RE
  | rep : RE → Nat → Option Nat → RE
  | wb : RE
  | la : RE → RE
  | eos : RE

namespace RE

/-- The character preceding the current position after consuming
`taken` characters (needed for `\b`). -/
def lastChar (prev : Option Char) (taken : List Char) : Option Char :=
  match taken.getLast? with
  | some c => some c
  | none => prev

/-- Structural size of a regular expression, used only to choose a
sufficient recursion-depth bound for the matcher. -/
def reSize : RE → Nat
  | .emp | .cls _ | .wb | .eos => 1
  | .seq r t | .alt r t => reSize r + reSize t + 1
  | .rep r _ _ => reSize r + 1
  | .la r => reSize r + 1

/-- All possible lengths of a match of `r` at the start of `s`, in
backtracking priority order (the head is the match JavaScript picks).
`prev` is the character just before the current position.  The fuel
bounds the recursion depth; along any call path at most `reSize r`
consecutive steps descend into subexpressions before a repetition step
consumes a character, so the fuel chosen by `matchTop` is never
exhausted. -/
def matchLens : Nat → RE → Option Char → List Char → List Nat
  | 0, _, _, _ => []
  | _ + 1, .emp, _, _ => [0]
  | _ + 1, .cls p, _, s =>
    match s with
    | [] => []
    | c :: _ => if p c then [1] else []
  | fuel + 1, .seq r t, prev, s =>
    (matchLens fuel r prev s).flatMap fun n =>
      (matchLens fuel t (lastChar prev (s.take n)) (s.drop n)).map (n + ·)
  | fuel + 1, .alt r t, prev, s =>
    matchLens fuel r prev s ++ matchLens fuel t prev s
  | fuel + 1, .rep r lo hi, prev, s =>
    match hi with
    | some 0 => [0]
    | _ =>
      let iter := (matchLens fuel r prev s).flatMap fun n =>
        if n = 0 then []
        else
          (matchLens fuel (.rep r (lo - 1) (hi.map (· - 1)))
            (lastChar prev (s.take n)) (s.drop n)).map (n + ·)
      if lo = 0 then iter ++ [0] else iter
  | _ + 1, .wb, prev, s =>
    let before := match prev with | some c => isJsWordChar c | none => false
    let after := match s with | c :: _ => isJsWordChar c | [] => false
    if before = after then [] else [0]
  | fuel + 1, .la r, prev, s =>
    if matchLens fuel r prev s = [] then [] else [0]
  | _ + 1, .eos, _, s => if s.isEmpty then [0] else []

/-- The matcher with a recursion-depth budget large enough never to be
hit: each character consumed allows at most `reSize r + 1` further
structural descent steps. -/
def matchTop (r : RE) (prev : Option Char) (s : List Char) : List Nat :=
  matchLens ((s.length + 2) * (reSize r + 2)) r prev s

/-- The length of the match JavaScript produces at this position, if
any. -/
def firstMatch (r : RE) (prev : Option Char) (s : List Char) : Option Nat :=
  (matchTop r prev s).head?

/-- One pass of `String.prototype.replace` with the `g` flag: scan left
to right, replace every leftmost match, resume after each match (an
empty match is replaced and the scan advances one character). -/
def replaceFrom : Nat → RE → List Char → Option Char → List Char → List Char
  | 0, _, _, _, s => s
  | fuel + 1, r, repl, prev, s =>
    match firstMatch r prev s with
    | some 0 =>
      match s with
      | [] => repl
      | c :: rest => repl ++ c :: replaceFrom fuel r repl (some c) rest
    | some (n + 1) =>
      repl ++ replaceFrom fuel r repl (lastChar prev (s.take (n + 1))) (s.drop (n + 1))
    | none =>
      match s with
      | [] => []
      | c :: rest => c :: replaceFrom fuel r repl (some c) rest

/-- `s.replace(r, repl)` with the `g` flag. -/
def jsReplaceAll (r : RE) (repl : String) (s : String) : String :=
  ⟨replaceFrom (s.data.length + 1) r repl.data none s.data⟩

/-- Whether `r` matches somewhere in `s` from the given scan state. -/
def testFrom : Nat → RE → Option Char → List Char → Bool
  | 0, _, _, _ => false
  | fuel + 1, r, prev, s =>
    match firstMatch r prev s with
    | some _ => true
    | none =>
      match s with
      | [] => false
      | c :: rest => testFrom fuel r (some c) rest

/-- `r.test(s)`. -/
def testRE (r : RE) (s : String) : Bool :=
  testFrom (s.data.length + 1) r none s.data

/-- A single case-sensitive literal character. -/
def lit1 (c : Char) : RE := .cls (· = c)

/-- A single case-insensitive literal character (the `i` flag). -/
def liti1 (c : Char) : RE := .cls (fun d => d.toLower = c.toLower)

/-- A case-sensitive literal string. -/
def litStr (w : String) : RE :=
  w.data.foldr (fun c r => .seq (lit1 c) r) .emp

/-- A case-insensitive literal string (the `i` flag). -/
def litStri (w : String) : RE :=
  w.data.foldr (fun c r => .seq (liti1 c) r) .emp

/-- Greedy `r*`. -/
def star (r : RE) : RE := .rep r 0 none

/-- Greedy `r+`. -/
def plus (r : RE) : RE := .rep r 1 none

/-- Greedy `r?`. -/
def opt (r : RE) : RE := .rep r 0 (some 1)

/-- Exactly `n` repetitions, `r{n}`. -/
def repn (r : RE) (n : Nat) : RE := .rep r n (some n)

/-- A regular expression that never matches. -/
def fail : RE := .cls (fun _ => false)

/-- Left-to-right alternation of a list of alternatives. -/
def altList : List RE → RE
  | [] => fail
  | [r] => r
  | r :: rest => .alt r (altList rest)

/-- Case-insensitive alternation of literal words. -/
def altWordsi (ws : List String) : RE :=
  altList (ws.map litStri)

end RE

/-! ## `utils/error-hash.ts`: normalization patterns and fingerprinting -/

open RE in
/-- `NORMALIZATION_PATTERNS`, in source order.  Each entry is the
regular expression and its replacement string. -/
def NORMALIZATION_PATTERNS : List (RE × String) :=
  let pathSeg : RE := .seq (lit1 '/')
    (plus (.cls fun c => isJsWordChar c || c = '.' || c = '-'))
  [ -- /(?:\/[\w.-]+)+(?:\/[\w.-]+)*\.\w+/g
    (.seq (plus pathSeg) (.seq (star pathSeg)
      (.seq (lit1 '.') (plus (.cls (isJsWordChar ·))))), "<FILE_PATH>"),
    -- /(?:[A-Z]:\\[\w\\.-]+)+/gi
    (plus (.seq (.cls (isAsciiLetter ·)) (.seq (lit1 ':') (.seq (lit1 '\\')
      (plus (.cls fun c => isJsWordChar c || c = '\\' || c = '.' || c = '-'))))),
      "<FILE_PATH>"),
    -- /(?:line|ln|L)\s*:?\s*\d+/gi
    (.seq (altList [litStri "line", litStri "ln", liti1 'L'])
      (.seq (star (.cls (isJsSpace ·))) (.seq (opt (lit1 ':'))
        (.seq (star (.cls (isJsSpace ·))) (plus (.cls (isJsDigit ·)))))),
      "line <LINE>"),
    -- /:\d+:\d+/g
    (.seq (lit1 ':') (.seq (plus (.cls (isJsDigit ·)))
      (.seq (lit1 ':') (plus (.cls (isJsDigit ·))))), ":<LINE>:<COL>"),
    -- /0x[0-9a-fA-F]+/g  (note: the `0x` prefix is case-sensitive)
    (.seq (litStr "0x") (plus (.cls (isHexDigit ·))), "<ADDR>"),
    -- /[0-9a-f]{8}-[0-9a-f]{4}-[0-9a-f]{4}-[0-9a-f]{4}-[0-9a-f]{12}/gi
    (.seq (repn (.cls (isHexDigit ·)) 8) (.seq (lit1 '-')
      (.seq (repn (.cls (isHexDigit ·)) 4) (.seq (lit1 '-')
      (.seq (repn (.cls (isHexDigit ·)) 4) (.seq (lit1 '-')
      (.seq (repn (.cls (isHexDigit ·)) 4) (.seq (lit1 '-')
      (repn (.cls (isHexDigit ·)) 12)))))))), "<UUID>"),
    -- /\d{4}-\d{2}-\d{2}[T ]\d{2}:\d{2}:\d{2}(?:\.\d+)?(?:Z|[+-]\d{2}:?\d{2})?/g
    (.seq (repn (.cls (isJsDigit ·)) 4) (.seq (lit1 '-')
      (.seq (repn (.cls (isJsDigit ·)) 2) (.seq (lit1 '-')
      (.seq (repn (.cls (isJsDigit ·)) 2)
      (.seq (.cls fun c => c = 'T' || c = ' ')
      (.seq (repn (.cls (isJsDigit ·)) 2) (.seq (lit1 ':')
      (.seq (repn (.cls (isJsDigit ·)) 2) (.seq (lit1 ':')
      (.seq (repn (.cls (isJsDigit ·)) 2)
      (.seq (opt (.seq (lit1 '.') (plus (.cls (isJsDigit ·)))))
      (opt (.alt (lit1 'Z')
        (.seq (.cls fun c => c = '+' || c = '-')
          (.seq (repn (.cls (isJsDigit ·)) 2) (.seq (opt (lit1 ':'))
            (repn (.cls (isJsDigit ·)) 2))))))))))))))))), "<TIMESTAMP>"),
    -- /\b\d{5,}\b/g
    (.seq .wb (.seq (.rep (.cls (isJsDigit ·)) 5 none) .wb), "<ID>"),
    -- /\b\d{1,3}\.\d{1,3}\.\d{1,3}\.\d{1,3}\b/g
    (.seq .wb (.seq (.rep (.cls (isJsDigit ·)) 1 (some 3)) (.seq (lit1 '.')
      (.seq (.rep (.cls (isJsDigit ·)) 1 (some 3)) (.seq (lit1 '.')
      (.seq (.rep (.cls (isJsDigit ·)) 1 (some 3)) (.seq (lit1 '.')
      (.seq (.rep (.cls (isJsDigit ·)) 1 (some 3)) .wb))))))), "<IP>"),
    -- /:(\d{2,5})(?=\s|$|\/)/g
    (.seq (lit1 ':') (.seq (.rep (.cls (isJsDigit ·)) 2 (some 5))
      (.la (altList [.cls (isJsSpace ·), .eos, lit1 '/']))), ":<PORT>"),
    -- double-quoted string literals of 50+ characters
    (.seq (lit1 '"') (.seq (.rep (.cls (· ≠ '"')) 50 none) (lit1 '"')),
      "\"<LONG_STRING>\""),
    -- single-quoted string literals of 50+ characters
    (.seq (.cls (· = Char.ofNat 39)) (.seq (.rep (.cls (· ≠ Char.ofNat 39)) 50 none)
      (.cls (· = Char.ofNat 39))), String.mk [Char.ofNat 39] ++ "<LONG_STRING>" ++ String.mk [Char.ofNat 39]),
    -- /\s+/g
    (plus (.cls (isJsSpace ·)), " ") ]

/-- `normalizeErrorMessage`: trim, apply the normalization patterns in
order, lowercase, trim. -/
def normalizeErrorMessage (message : String) : String :=
  let normalized := jsTrim message
  let normalized :=
    NORMALIZATION_PATTERNS.foldl (fun acc p => RE.jsReplaceAll p.1 p.2 acc) normalized
  jsTrim (jsToLower normalized)

/-- `generateErrorHash`: digest of `errorType + ":" + normalized`.  The
SHA-256 digest itself is an external primitive, abstracted as the
`sha256` parameter. -/
def generateErrorHash (sha256 : String → String) (message errorType : String) : String :=
  sha256 (errorType ++ ":" ++ normalizeErrorMessage message)

open RE in
/-- `errorTypePatterns` of `extractErrorType`, in source order. -/
def errorTypePatterns : List (RE × String) :=
  [ (litStri "TypeError", "TypeError"),
    (litStri "ReferenceError", "ReferenceError"),
    (litStri "SyntaxError", "SyntaxError"),
    (litStri "RangeError", "RangeError"),
    (litStri "URIError", "URIError"),
    (litStri "EvalError", "EvalError"),
    (litStri "ENOENT", "FileNotFound"),
    (litStri "EACCES", "PermissionDenied"),
    (litStri "ECONNREFUSED", "ConnectionRefused"),
    (litStri "ETIMEDOUT", "Timeout"),
    (litStri "ENOTFOUND", "NotFound"),
    (litStri "AssertionError", "AssertionError"),
    (litStri "ValidationError", "ValidationError"),
    (litStri "AuthenticationError", "AuthenticationError"),
    (litStri "AuthorizationError", "AuthorizationError"),
    (litStri "NetworkError", "NetworkError"),
    (litStri "DatabaseError", "DatabaseError"),
    (litStri "ParseError", "ParseError"),
    (.seq .wb (.seq (litStri "ESLint") .wb), "LintError"),
    (.seq .wb (.seq (litStri "TypeScript") (.seq .wb
      (.seq (star (.cls (isNotNewline ·))) (litStri "error")))), "TypeScriptError"),
    (litStri "compilation failed", "CompilationError"),
    (litStri "test failed", "TestFailure"),
    (litStri "assertion failed", "AssertionError") ]

/-- `extractErrorType`: the first matching pattern wins, otherwise the
caller-supplied default, which is `"unknown"` at every call site in the
core (the parameter default in the source). -/
def extractErrorType (message : String) (defaultType : String) : String :=
  match errorTypePatterns.find? (fun p => RE.testRE p.1 message) with
  | some p => p.2
  | none => defaultType

/-- Error severity, ordered `low < medium < high < critical`. -/
inductive Severity where
  | low | medium | high | critical
deriving DecidableEq

open RE in
/-- `suggestSeverity`: first matching tier wins (critical, high,
medium), defaulting to low. -/
def suggestSeverity (message : String) : Severity :=
  let lowerMessage := jsToLower message
  if testRE (altWordsi ["security", "vulnerability", "injection", "xss", "csrf",
      "breach", "leak", "expose"]) lowerMessage
    || testRE (altWordsi ["data loss", "corruption", "critical", "fatal",
      "unrecoverable"]) lowerMessage then
    .critical
  else if testRE (altWordsi ["crash", "panic", "segfault", "out of memory", "heap",
      "stack overflow"]) lowerMessage
    || testRE (altWordsi ["authentication", "authorization", "permission denied",
      "access denied"]) lowerMessage
    || testRE (altWordsi ["database", "connection failed", "service unavailable"])
      lowerMessage then
    .high
  else if testRE (altWordsi ["error", "exception", "failed", "failure", "invalid",
      "unexpected"]) lowerMessage
    || testRE (altWordsi ["timeout", "retry", "not found", "missing"]) lowerMessage then
    .medium
  else
    .low

open RE in
/-- A case-insensitive whole word, `\bw\b` with the `i` flag. -/
def wordi (w : String) : RE := .seq .wb (.seq (litStri w) .wb)

open RE in
/-- `techPatterns` of `extractTags`, in source order. -/
def techPatterns : List (RE × String) :=
  [ (wordi "react", "react"), (wordi "vue", "vue"), (wordi "angular", "angular"),
    (.seq .wb (.seq (litStri "node") (.seq (opt (litStri "js")) .wb)), "nodejs"),
    (wordi "typescript", "typescript"), (wordi "javascript", "javascript"),
    (wordi "python", "python"), (wordi "rust", "rust"),
    (.seq .wb (.seq (litStri "go") (.seq (opt (litStri "lang")) .wb)), "golang"),
    (wordi "webpack", "webpack"), (wordi "vite", "vite"), (wordi "est", "esbuild"),
    (wordi "npm", "npm"), (wordi "yarn", "yarn"), (wordi "pnpm", "pnpm"),
    (wordi "git", "git"), (wordi "docker", "docker"),
    (.alt (wordi "kubernetes") (wordi "k8s"), "kubernetes"),
    (wordi "aws", "aws"),
    (.seq .wb (.seq (litStri "postgres") (.seq (opt (litStri "ql")) .wb)), "postgresql"),
    (wordi "mysql", "mysql"), (wordi "mongodb", "mongodb"), (wordi "redis", "redis"),
    (wordi "sqlite", "sqlite"), (wordi "http", "http"), (wordi "api", "api"),
    (wordi "rest", "rest"), (wordi "graphql", "graphql"),
    (wordi "websocket", "websocket") ]

open RE in
/-- `domainPatterns` of `extractTags`, in source order. -/
def domainPatterns : List (RE × String) :=
  [ (.seq .wb (.seq (litStri "auth")
      (.seq (opt (.alt (litStri "entication") (litStri "orization"))) .wb)),
      "authentication"),
    (wordi "validation", "validation"),
    (.alt (wordi "parsing") (wordi "parse"), "parsing"),
    (wordi "network", "network"),
    (.alt (wordi "file") (wordi "filesystem"), "filesystem"),
    (.alt (wordi "database") (wordi "db"), "database"),
    (.alt (wordi "cache") (wordi "caching"), "caching"),
    (.alt (wordi "async") (wordi "promise"), "async"),
    (.alt (wordi "type") (wordi "typing"), "types"),
    (altList [wordi "import", wordi "export", wordi "module"], "modules"),
    (.alt (wordi "build") (wordi "compile"), "build"),
    (.alt (wordi "test") (wordi "testing"), "testing"),
    (.alt (wordi "deploy") (wordi "deployment"), "deployment") ]

/-- Insertion into a JavaScript `Set` of strings (first insertion
determines the order, later inserts of the same value are no-ops). -/
def jsSetAdd (acc : List String) (s : String) : List String :=
  if s ∈ acc then acc else acc ++ [s]

/-- `Array.from(new Set(xs))`. -/
def jsSetList (xs : List String) : List String :=
  xs.foldl jsSetAdd []

/-- `extractTags`: the lowercased error type plus every matching
technology and domain vocabulary entry, in insertion order. -/
def extractTags (message errorType : String) : List String :=
  let tags := jsSetAdd [] (jsToLower errorType)
  let tags := techPatterns.foldl
    (fun acc p => if RE.testRE p.1 message then jsSetAdd acc p.2 else acc) tags
  domainPatterns.foldl
    (fun acc p => if RE.testRE p.1 message then jsSetAdd acc p.2 else acc) tags

/-! ## A stable sort modelling `Array.prototype.sort`

`Array.prototype.sort` is stable; a stable insertion sort is an
extensionally equivalent model for every comparator the memory layer
uses.  `le x y = true` means `x` may be placed before `y`. -/

/-- Insert `x` in front of the first element it may precede. -/
def stableInsert (le : α → α → Bool) (x : α) : List α → List α
  | [] => [x]
  | y :: ys => if le x y then x :: y :: ys else y :: stableInsert le x ys

/-- Stable insertion sort. -/
def stableSort (le : α → α → Bool) : List α → List α
  | [] => []
  | x :: xs => stableInsert le x (stableSort le xs)

/-! ## `utils/similarity.ts`: the similarity engine -/

/-- `cosineSimilarity`: throws on a length mismatch, returns 0 for
empty vectors and for zero magnitude, otherwise the normalized dot
product.  `Math.sqrt` is abstracted as the `sqrt` parameter. -/
def cosineSimilarity (sqrt : ℚ → ℚ) (a b : List ℚ) : Except String ℚ :=
  if a.length ≠ b.length then
    .error "Vector length mismatch"
  else if a.length = 0 then
    .ok 0
  else
    let dotProduct := ((a.zip b).map fun p => p.1 * p.2).sum
    let normA := (a.map fun x => x * x).sum
    let normB := (b.map fun x => x * x).sum
    let magnitude := sqrt normA * sqrt normB
    if magnitude = 0 then .ok 0 else .ok (dotProduct / magnitude)

/-- The four bytes of a 32-bit value, least significant first (the
layout produced by `Buffer.writeFloatLE`). -/
def bytesLE4 (n : Nat) : List Nat :=
  [n % 256, n / 256 % 256, n / 65536 % 256, n / 16777216 % 256]

/-- `floatArrayToBuffer`: pack each number as four little-endian bytes
of its IEEE-754 single-precision bit pattern; the float-to-bits
conversion of `writeFloatLE` is abstracted as `encodeF`. -/
def floatArrayToBuffer (encodeF : ℚ → Nat) (arr : List ℚ) : List Nat :=
  arr.flatMap fun x => bytesLE4 (encodeF x)

/-- `bufferToFloatArray`: read four-byte little-endian groups from the
front of the buffer; `readFloatLE` past the end of the buffer throws,
modelled as `none`.  The bits-to-float conversion of `readFloatLE` is
abstracted as `decodeF`. -/
def bufferToFloatArray (decodeF : Nat → ℚ) : List Nat → Option (List ℚ)
  | [] => some []
  | b0 :: b1 :: b2 :: b3 :: rest =>
    (bufferToFloatArray decodeF rest).map
      (decodeF (b0 + 256 * b1 + 65536 * b2 + 16777216 * b3) :: ·)
  | _ => none

/-- `jaccardSimilarity` over lowercased string sets; 1 when both sets
are empty. -/
def jaccardSimilarity (a b : List String) : ℚ :=
  let setA := jsSetList (a.map jsToLower)
  let setB := jsSetList (b.map jsToLower)
  if setA.length = 0 ∧ setB.length = 0 then 1
  else
    let intersection := setA.filter (· ∈ setB)
    let union := jsSetList (setA ++ setB)
    (intersection.length : ℚ) / (union.length : ℚ)

/-- One row of the Levenshtein matrix from the previous row:
`pj1 = prev[j-1]`, `prest = prev[j…]`, `left = cur[j-1]`; the cell is
`prev[j-1]` on equal characters and otherwise one plus the minimum of
substitution, insertion and deletion, exactly as in the source. -/
def levRowAux (y : Char) : List Char → Nat → List Nat → Nat → List Nat
  | [], _, _, _ => []
  | aj :: as, pj1, prest, left =>
    match prest with
    | [] => []
    | pj :: prest2 =>
      let cur := if y = aj then pj1 else 1 + min pj1 (min left pj)
      cur :: levRowAux y as pj prest2 cur

/-- Row `i` of the matrix for the character `y = b[i-1]`. -/
def levNextRow (a : List Char) (y : Char) (i : Nat) (prev : List Nat) : List Nat :=
  i :: levRowAux y a (prev.headD 0) prev.tail i

/-- Fill rows `i, i+1, …` of the matrix for the remaining characters of
`b`, returning the last row. -/
def levRows (a : List Char) : List Char → Nat → List Nat → List Nat
  | [], _, prev => prev
  | y :: ys, i, prev => levRows a ys (i + 1) (levNextRow a y i prev)

/-- `levenshteinDistance`: the dynamic-programming matrix of the
source, row by row over `b`, returning `matrix[b.length][a.length]`. -/
def levenshteinDistance (a b : String) : Nat :=
  if a.length = 0 then b.length
  else if b.length = 0 then a.length
  else
    let row0 := List.range (a.length + 1)
    let finalRow := levRows a.data b.data 1 row0
    finalRow.getD a.length 0

/-- `levenshteinSimilarity = 1 - distance / max(len a, len b)`, and 1
when both strings are empty. -/
def levenshteinSimilarity (a b : String) : ℚ :=
  let maxLength := max a.length b.length
  if maxLength = 0 then 1
  else 1 - (levenshteinDistance a b : ℚ) / (maxLength : ℚ)

/-- `s.toLowerCase().split(/\s+/).filter(Boolean)`. -/
def jsTokens (s : String) : List String :=
  (((jsToLower s).data.splitOnP (isJsSpace ·)).map (fun l => (⟨l⟩ : String))).filter
    (· ≠ "")

/-- `tokenSimilarity`: Jaccard similarity of the whitespace token
sets. -/
def tokenSimilarity (a b : String) : ℚ :=
  jaccardSimilarity (jsTokens a) (jsTokens b)

/-- `combinedSimilarity` with the default weights (`token = 0.6`,
`levenshtein = 0.4`), the only weights used by the retrieval core. -/
def combinedSimilarity (a b : String) : ℚ :=
  (6 / 10 : ℚ) * tokenSimilarity a b + (4 / 10 : ℚ) * levenshteinSimilarity a b

/-! ## The record store: rows and database state

The four SQLite tables are lists of rows; `AUTOINCREMENT` surrogate
keys are next-id counters and `datetime('now')` is a logical clock
advanced once per mutating operation. -/

/-- A row of the `errors` table. -/
structure ErrorRow where
  id : Nat
  hash : String
  message : String
  normalizedMessage : String
  errorType : String
  severity : Severity
  stackTrace : Option String
  filePath : Option String
  projectName : Option String
  occurrenceCount : Nat
  firstSeenAt : Nat
  lastSeenAt : Nat
deriving DecidableEq

/-- A row of the `tags` table. -/
structure TagRow where
  id : Nat
  name : String
  category : Option String
deriving DecidableEq

/-- The `CASE` expression of the generated `success_rate` column of
the `solutions` table. -/
def sqliteSuccessRate (s f : Nat) : ℚ :=
  if s + f = 0 then 0 else (s : ℚ) / ((s : ℚ) + (f : ℚ))

/-- A row of the `solutions` table.  `successRate` is the stored
generated column, recomputed by SQLite whenever the row is written. -/
structure SolutionRow where
  id : Nat
  errorId : Nat
  content : String
  codeSnippet : Option String
  successCount : Nat
  failureCount : Nat
  successRate : ℚ
  source : String
  projectName : Option String
  createdAt : Nat
deriving DecidableEq

/-- A row of the `embeddings` table; the blob is a list of bytes. -/
structure EmbeddingRow where
  id : Nat
  errorId : Nat
  embedding : List Nat
  model : String
  dimensions : Nat
deriving DecidableEq

/-- The database state. -/
structure Db where
  errors : List ErrorRow
  nextErrorId : Nat
  tags : List TagRow
  nextTagId : Nat
  errorTags : List (Nat × Nat)
  solutions : List SolutionRow
  nextSolutionId : Nat
  embeddings : List EmbeddingRow
  nextEmbeddingId : Nat
  now : Nat
deriving DecidableEq

/-- The freshly initialized database. -/
def emptyDb : Db :=
  { errors := [], nextErrorId := 0, tags := [], nextTagId := 0, errorTags := [],
    solutions := [], nextSolutionId := 0, embeddings := [], nextEmbeddingId := 0,
    now := 0 }

/-- An error joined with its tag names (`ErrorWithTags`). -/
structure ErrorWithTags where
  row : ErrorRow
  tags : List String
deriving DecidableEq

/-- `SearchOptions`; absent fields are `none`. -/
structure SearchOptions where
  limit : Option Nat := none
  minSimilarity : Option ℚ := none
  tags : Option (List String) := none
  projectName : Option String := none
  errorType : Option String := none
  severity : Option Severity := none
  includeEmbeddings : Option Bool := none
deriving DecidableEq

/-- JavaScript `x || d` on an optional count (`0` is falsy). -/
def jsOrNat (o : Option Nat) (d : Nat) : Nat :=
  match o with
  | some n => if n = 0 then d else n
  | none => d

/-- JavaScript `x || d` on an optional rational (`0` is falsy). -/
def jsOrQ (o : Option ℚ) (d : ℚ) : ℚ :=
  match o with
  | some q => if q = 0 then d else q
  | none => d

/-! ## `services/tag-service.ts` (the operations `recordError` uses) -/

/-- `createTag`: insert a lowercased, trimmed tag name. -/
def createTag (name : String) (category : Option String) (db : Db) : TagRow × Db :=
  let normalizedName := jsTrim (jsToLower name)
  let tag : TagRow := { id := db.nextTagId, name := normalizedName, category }
  (tag, { db with tags := db.tags ++ [tag], nextTagId := db.nextTagId + 1 })

/-- `getTagByName`. -/
def getTagByName (name : String) (db : Db) : Option TagRow :=
  db.tags.find? (fun t => t.name = jsTrim (jsToLower name))

/-- `getOrCreateTags`: existing tags are reused, blank names skipped;
the loop over the names is written as recursion. -/
def getOrCreateTags (category : Option String) : List String → Db → List TagRow × Db
  | [], db => ([], db)
  | name :: rest, db =>
    let normalizedName := jsTrim (jsToLower name)
    if normalizedName = "" then getOrCreateTags category rest db
    else
      match getTagByName normalizedName db with
      | some tag =>
        let r := getOrCreateTags category rest db
        (tag :: r.1, r.2)
      | none =>
        let c := createTag normalizedName category db
        let r := getOrCreateTags category rest c.2
        (c.1 :: r.1, r.2)

/-- `addTagsToError` (`INSERT OR IGNORE` into the junction table). -/
def addTagsToError (errorId : Nat) : List Nat → Db → Db
  | [], db => db
  | tagId :: rest, db =>
    if (errorId, tagId) ∈ db.errorTags then addTagsToError errorId rest db
    else addTagsToError errorId rest
      { db with errorTags := db.errorTags ++ [(errorId, tagId)] }

/-- `getTagsByErrorId`: the error's tags ordered by name ascending. -/
def getTagsByErrorId (errorId : Nat) (db : Db) : List TagRow :=
  stableSort (fun t1 t2 => decide (t1.name ≤ t2.name))
    (db.tags.filter (fun t => (errorId, t.id) ∈ db.errorTags))

/-- The tag names attached to an error, ordered by name. -/
def tagNamesOf (errorId : Nat) (db : Db) : List String :=
  (getTagsByErrorId errorId db).map (·.name)

/-! ## `services/error-service.ts` -/

/-- `ErrorInput`.  `errorType` is the empty string and `severity` is
`none` when the caller lets the service derive them (the `||`
fallbacks in `recordError`). -/
structure ErrorInput where
  message : String
  errorType : String
  severity : Option Severity
  stackTrace : Option String := none
  filePath : Option String := none
  projectName : Option String := none
  tags : List String := []
deriving DecidableEq

/-- The error type `recordError` stores: the caller's when truthy,
otherwise `extractErrorType`. -/
def recordErrorType (input : ErrorInput) : String :=
  if input.errorType = "" then extractErrorType input.message "unknown"
  else input.errorType

/-- The fingerprint `recordError` deduplicates on. -/
def recordErrorHash (sha256 : String → String) (input : ErrorInput) : String :=
  generateErrorHash sha256 input.message (recordErrorType input)

/-- The row `recordError` inserts on a fresh fingerprint (`INSERT INTO
errors …` with occurrence count defaulting to 1 and both timestamps
defaulting to now). -/
def freshErrorRow (sha256 : String → String) (input : ErrorInput) (db : Db) :
    ErrorRow :=
  { id := db.nextErrorId, hash := recordErrorHash sha256 input,
    message := input.message,
    normalizedMessage := normalizeErrorMessage input.message,
    errorType := recordErrorType input,
    severity := match input.severity with
      | some s => s
      | none => suggestSeverity input.message,
    stackTrace := input.stackTrace, filePath := input.filePath,
    projectName := input.projectName, occurrenceCount := 1,
    firstSeenAt := db.now, lastSeenAt := db.now }

/-- `recordError`: check-then-act deduplication — increment the
occurrence count and refresh `last_seen_at` when a row with the same
hash exists, otherwise insert a fresh row and attach the caller's and
the auto-extracted tags. -/
def recordError (sha256 : String → String) (input : ErrorInput) (db : Db) :
    Nat × Db :=
  let hash := recordErrorHash sha256 input
  match db.errors.find? (fun e => e.hash = hash) with
  | some existing =>
    let errors := db.errors.map fun e =>
      if e.id = existing.id then
        { e with occurrenceCount := e.occurrenceCount + 1, lastSeenAt := db.now }
      else e
    (existing.id, { db with errors := errors, now := db.now + 1 })
  | none =>
    let errorId := db.nextErrorId
    let row := freshErrorRow sha256 input db
    let db2 := { db with errors := db.errors ++ [row], nextErrorId := errorId + 1 }
    let autoTags := extractTags input.message (recordErrorType input)
    let allTags := jsSetList (input.tags ++ autoTags)
    let db3 :=
      if allTags = [] then db2
      else
        let gct := getOrCreateTags none allTags db2
        addTagsToError errorId (gct.1.map (·.id)) gct.2
    (errorId, { db3 with now := db3.now + 1 })

/-- `getErrorById`. -/
def getErrorById (id : Nat) (db : Db) : Option ErrorWithTags :=
  (db.errors.find? (fun e => e.id = id)).map fun e =>
    { row := e, tags := tagNamesOf e.id db }

/-- `getErrorByHash`. -/
def getErrorByHash (hash : String) (db : Db) : Option ErrorWithTags :=
  (db.errors.find? (fun e => e.hash = hash)).map fun e =>
    { row := e, tags := tagNamesOf e.id db }

/-- `findErrorByMessage`: exact lookup under the query's fingerprint;
the error type is the caller's when truthy, else extracted. -/
def findErrorByMessage (sha256 : String → String) (message : String)
    (errorType : Option String) (db : Db) : Option ErrorWithTags :=
  let type := match errorType with
    | some t => if t = "" then extractErrorType message "unknown" else t
    | none => extractErrorType message "unknown"
  getErrorByHash (generateErrorHash sha256 message type) db

/-- The lexical phase of `findSimilarErrors`: filter candidates,
oversample the most recent `limit * 5`, score with
`combinedSimilarity` against the normalized query, keep scores at or
above the floor, sort descending, truncate. -/
def findSimilarErrorsScan (message : String) (options : SearchOptions) (db : Db) :
    List (ErrorWithTags × ℚ) :=
  let limit := options.limit.getD 10
  let minSimilarity := options.minSimilarity.getD (3 / 10)
  let candidates := db.errors
  let candidates := match options.projectName with
    | some p => candidates.filter (fun e => e.projectName = some p)
    | none => candidates
  let candidates := match options.errorType with
    | some t => candidates.filter (fun e => e.errorType = t)
    | none => candidates
  let candidates := match options.severity with
    | some s => candidates.filter (fun e => e.severity = s)
    | none => candidates
  let candidates :=
    (stableSort (fun e1 e2 => decide (e2.lastSeenAt ≤ e1.lastSeenAt)) candidates).take
      (limit * 5)
  let normalizedSearch := normalizeErrorMessage message
  let results := candidates.filterMap fun row =>
    let similarity := combinedSimilarity normalizedSearch row.normalizedMessage
    if minSimilarity ≤ similarity then
      some ({ row, tags := tagNamesOf row.id db }, similarity)
    else none
  (stableSort (fun r1 r2 => decide (r2.2 ≤ r1.2)) results).take limit

/-- `findSimilarErrors`: an exact fingerprint match short-circuits with
similarity 1.0; otherwise the lexical scan runs. -/
def findSimilarErrors (sha256 : String → String) (message : String)
    (options : SearchOptions) (db : Db) : List (ErrorWithTags × ℚ) :=
  match findErrorByMessage sha256 message none db with
  | some exactMatch => [(exactMatch, 1)]
  | none => findSimilarErrorsScan message options db

/-! ## `services/solution-service.ts` -/

/-- `SolutionInput`. -/
structure SolutionInput where
  errorId : Nat
  content : String
  codeSnippet : Option String := none
  source : String
  projectName : Option String := none
deriving DecidableEq

/-- `recordSolution`: verify the parent error exists, then insert with
zero counts (the generated `success_rate` column starts at 0). -/
def recordSolution (input : SolutionInput) (db : Db) : Except String (Nat × Db) :=
  match db.errors.find? (fun e => e.id = input.errorId) with
  | none => .error "Error not found"
  | some _ =>
    let id := db.nextSolutionId
    let row : SolutionRow :=
      { id, errorId := input.errorId, content := input.content,
        codeSnippet := input.codeSnippet, successCount := 0, failureCount := 0,
        successRate := sqliteSuccessRate 0 0, source := input.source,
        projectName := input.projectName, createdAt := db.now }
    .ok (id, { db with solutions := db.solutions ++ [row],
                        nextSolutionId := id + 1, now := db.now + 1 })

/-- `recordSolutionOutcome`: increment the success or failure counter
of the addressed row (SQLite recomputes the stored generated
`success_rate` on the update); throws when no row matches. -/
def recordSolutionOutcome (solutionId : Nat) (success : Bool) (db : Db) :
    Except String Db :=
  if db.solutions.any (fun s => s.id = solutionId) then
    .ok { db with
      solutions := db.solutions.map fun row =>
        if row.id = solutionId then
          let s := if success then row.successCount + 1 else row.successCount
          let f := if success then row.failureCount else row.failureCount + 1
          { row with successCount := s, failureCount := f,
                     successRate := sqliteSuccessRate s f }
        else row,
      now := db.now + 1 }
  else .error "Solution not found"

/-- `getSolutionsForError`: `ORDER BY success_rate DESC,
success_count DESC`. -/
def getSolutionsForError (errorId : Nat) (db : Db) : List SolutionRow :=
  stableSort
    (fun s1 s2 => decide (s2.successRate < s1.successRate ∨
      (s1.successRate = s2.successRate ∧ s2.successCount ≤ s1.successCount)))
    (db.solutions.filter (fun s => s.errorId = errorId))

/-! ## `services/embedding-service.ts` -/

/-- One iteration of the scan of `findSimilarByEmbedding`: decode the
stored buffer (a decode failure throws, as `readFloatLE` does),
silently skip the row when the dimensionality differs from the
query's, otherwise score it with cosine similarity (whose length
mismatch would throw) and keep it when at or above the floor. -/
def embStep (sqrt : ℚ → ℚ) (decodeF : Nat → ℚ) (targetEmbedding : List ℚ)
    (minSimilarity : ℚ) (acc : List (Nat × ℚ)) (row : EmbeddingRow) :
    Except String (List (Nat × ℚ)) :=
  match bufferToFloatArray decodeF row.embedding with
  | none => .error "Attempt to access memory outside buffer bounds"
  | some embedding =>
    if embedding.length ≠ targetEmbedding.length then .ok acc
    else
      match cosineSimilarity sqrt targetEmbedding embedding with
      | .error e => .error e
      | .ok similarity =>
        if minSimilarity ≤ similarity then .ok (acc ++ [(row.errorId, similarity)])
        else .ok acc

/-- The scan loop over all stored embeddings, propagating any thrown
error. -/
def embScan (sqrt : ℚ → ℚ) (decodeF : Nat → ℚ) (targetEmbedding : List ℚ)
    (minSimilarity : ℚ) : List EmbeddingRow → List (Nat × ℚ) →
    Except String (List (Nat × ℚ))
  | [], acc => .ok acc
  | row :: rows, acc =>
    match embStep sqrt decodeF targetEmbedding minSimilarity acc row with
    | .error e => .error e
    | .ok acc2 => embScan sqrt decodeF targetEmbedding minSimilarity rows acc2

/-- `findSimilarByEmbedding`: scan all stored embeddings, sort the
kept scores descending, truncate, and join each surviving error id
against the `errors` table. -/
def findSimilarByEmbedding (sqrt : ℚ → ℚ) (decodeF : Nat → ℚ)
    (targetEmbedding : List ℚ) (options : SearchOptions) (db : Db) :
    Except String (List (ErrorWithTags × ℚ)) :=
  let limit := options.limit.getD 10
  let minSimilarity := options.minSimilarity.getD (7 / 10)
  match embScan sqrt decodeF targetEmbedding minSimilarity db.embeddings [] with
  | .error e => .error e
  | .ok results =>
    let sorted := (stableSort (fun r1 r2 => decide (r2.2 ≤ r1.2)) results).take limit
    .ok (sorted.filterMap fun r => (getErrorById r.1 db).map fun e => (e, r.2))

/-! ## `services/memory-service.ts` -/

/-- The strategy that produced a search result. -/
inductive MatchType where
  | exact | hash | semantic | tag
deriving DecidableEq

/-- `ErrorSearchResult`. -/
structure ErrorSearchResult where
  error : ErrorWithTags
  solutions : List SolutionRow
  similarity : Option ℚ
  matchType : MatchType
deriving DecidableEq

/-- Append a strategy result to the merged list unless its error id was
already seen; the accumulator carries the merged results and the set of
seen ids. -/
def mergeStep (db : Db) (mt : ℚ → MatchType)
    (acc : List ErrorSearchResult × List Nat) (r : ErrorWithTags × ℚ) :
    List ErrorSearchResult × List Nat :=
  if r.1.row.id ∈ acc.2 then acc
  else
    (acc.1 ++ [{ error := r.1, solutions := getSolutionsForError r.1.row.id db,
                 similarity := some r.2, matchType := mt r.2 }],
     acc.2 ++ [r.1.row.id])

/-- The semantic phase of `findSimilar`: runs only when embeddings are
enabled, a generator is configured and the caller did not opt out;
`queryGen` is the outcome of the external `generate` call and any
failure inside the `try` block is caught, leaving no results. -/
def findSimilarSemanticPhase (sqrt : ℚ → ℚ) (decodeF : Nat → ℚ)
    (embeddingsEnabled : Bool) (queryGen : Except String (List ℚ))
    (options : SearchOptions) (db : Db) :
    List ErrorSearchResult × List Nat :=
  if embeddingsEnabled ∧ options.includeEmbeddings ≠ some false then
    match queryGen with
    | .error _ => ([], [])
    | .ok embedding =>
      match findSimilarByEmbedding sqrt decodeF embedding
        { limit := some (jsOrNat options.limit 5),
          minSimilarity := some (jsOrQ options.minSimilarity (7 / 10)) } db with
      | .error _ => ([], [])
      | .ok semanticResults =>
        semanticResults.foldl (mergeStep db fun _ => .semantic) ([], [])
  else ([], [])

/-- The merged (pre-sort, pre-truncation) result list of
`findSimilar`: semantic results first, then the text-similarity
results whose error ids are new, labelled `exact` at similarity 1.0
and `hash` otherwise. -/
def findSimilarCombined (sqrt : ℚ → ℚ) (decodeF : Nat → ℚ)
    (sha256 : String → String) (embeddingsEnabled : Bool)
    (queryGen : Except String (List ℚ)) (errorMessage : String)
    (options : SearchOptions) (db : Db) : List ErrorSearchResult :=
  let sem :=
    findSimilarSemanticPhase sqrt decodeF embeddingsEnabled queryGen options db
  let textResults := findSimilarErrors sha256 errorMessage
    { options with limit := some (jsOrNat options.limit 10 - sem.1.length) } db
  (textResults.foldl
    (mergeStep db fun s => if s = 1 then .exact else .hash) sem).1

/-- `findSimilar`: merge the strategies, sort by similarity descending
and truncate to the requested limit. -/
def findSimilar (sqrt : ℚ → ℚ) (decodeF : Nat → ℚ) (sha256 : String → String)
    (embeddingsEnabled : Bool) (queryGen : Except String (List ℚ))
    (errorMessage : String) (options : SearchOptions) (db : Db) :
    List ErrorSearchResult :=
  (stableSort
    (fun r1 r2 => decide (r2.similarity.getD 0 ≤ r1.similarity.getD 0))
    (findSimilarCombined sqrt decodeF sha256 embeddingsEnabled queryGen
      errorMessage options db)).take (jsOrNat options.limit 10)

/-- `calculateResultScore`: similarity scaled to 40 points, plus — when
the result has solutions — a flat 20, the best solution's success rate
scaled to 30, and two points per attempt of the best solution capped at
10.  The best solution is picked by `reduce`, keeping the earlier
solution unless a later one has a strictly higher success rate. -/
def calculateResultScore (result : ErrorSearchResult) : ℚ :=
  let score := result.similarity.getD 0 * 40
  match result.solutions with
  | [] => score
  | s0 :: rest =>
    let score := score + 20
    let bestSolution := rest.foldl
      (fun best s => if best.successRate < s.successRate then s else best) s0
    let score := score + bestSolution.successRate * 30
    let totalAttempts := bestSolution.successCount + bestSolution.failureCount
    score + min ((totalAttempts : ℚ) * 2) 10

/-- The ranking stage of `getRelevantMemories`: sort the gathered
results by `calculateResultScore` descending and keep the top 5; the
returned list is stored unchanged as the `relevantErrors` of the
`MemoryContext` built by `buildMemoryContext`. -/
def getRelevantMemoriesRank (results : List ErrorSearchResult) :
    List ErrorSearchResult :=
  (stableSort
    (fun r1 r2 => decide (calculateResultScore r2 ≤ calculateResultScore r1))
    results).take 5

/-- Written from the specification sentence for the relevance score:
similarity scaled up to 40 points, presence of any solution +20 flat,
the best solution's success rate scaled up to 30 points, and a
saturating bonus of 2 points per attempt capped at 10, where the best
solution is the first one whose success rate is at least that of every
other. -/
def specRelevanceScore (result : ErrorSearchResult) : ℚ :=
  let specBest := result.solutions.find? fun s =>
    result.solutions.all fun t => t.successRate ≤ s.successRate
  result.similarity.getD 0 * 40 +
    match specBest with
    | none => 0
    | some best => 20 + best.successRate * 30 +
        min (2 * ((best.successCount + best.failureCount : Nat) : ℚ)) 10

/-! ## Lemmas about the stable sort -/

theorem stableInsert_mem (le : α → α → Bool) (x : α) (l : List α) (a : α) :
    a ∈ stableInsert le x l ↔ a = x ∨ a ∈ l := by
  induction l with
  | nil => simp [stableInsert]
  | cons y ys ih =>
    cases hcb : le x y with
    | true => simp [stableInsert, hcb]
    | false =>
      simp only [stableInsert, hcb, Bool.false_eq_true, if_false, List.mem_cons, ih]
      tauto

theorem stableSort_mem (le : α → α → Bool) (l : List α) (a : α) :
    a ∈ stableSort le l ↔ a ∈ l := by
  induction l with
  | nil => simp [stableSort]
  | cons x xs ih => simp [stableSort, stableInsert_mem, ih]

theorem stableInsert_perm (le : α → α → Bool) (x : α) (l : List α) :
    (stableInsert le x l).Perm (x :: l) := by
  induction l with
  | nil => simp [stableInsert]
  | cons y ys ih =>
    cases hcb : le x y with
    | true => simp [stableInsert, hcb]
    | false =>
      simp only [stableInsert, hcb, Bool.false_eq_true, if_false]
      exact ((ih.cons y).trans (List.Perm.swap x y ys))

theorem stableSort_perm (le : α → α → Bool) (l : List α) :
    (stableSort le l).Perm l := by
  induction l with
  | nil => simp [stableSort]
  | cons x xs ih => exact (stableInsert_perm le x (stableSort le xs)).trans (ih.cons x)

theorem stableSort_length (le : α → α → Bool) (l : List α) :
    (stableSort le l).length = l.length :=
  (stableSort_perm le l).length_eq

theorem stableInsert_sorted (le : α → α → Bool)
    (htot : ∀ a b, le a b = true ∨ le b a = true)
    (htrans : ∀ a b c, le a b = true → le b c = true → le a c = true)
    (x : α) (l : List α) (hl : l.Pairwise (fun a b => le a b = true)) :
    (stableInsert le x l).Pairwise (fun a b => le a b = true) := by
  induction l with
  | nil => simp [stableInsert]
  | cons y ys ih =>
    rcases List.pairwise_cons.mp hl with ⟨hy, hys⟩
    cases hcb : le x y with
    | true =>
      simp only [stableInsert, hcb, if_true]
      refine List.pairwise_cons.mpr ⟨?_, hl⟩
      intro b hb
      rcases List.mem_cons.mp hb with hb | hb
      · subst hb; exact hcb
      · exact htrans x y b hcb (hy b hb)
    | false =>
      simp only [stableInsert, hcb, Bool.false_eq_true, if_false]
      refine List.pairwise_cons.mpr ⟨?_, ih hys⟩
      intro b hb
      rcases (stableInsert_mem le x ys b).mp hb with hb | hb
      · subst hb
        rcases htot y b with h | h
        · exact h
        · rw [h] at hcb; exact absurd hcb (by simp)
      · exact hy b hb

theorem stableSort_sorted (le : α → α → Bool)
    (htot : ∀ a b, le a b = true ∨ le b a = true)
    (htrans : ∀ a b c, le a b = true → le b c = true → le a c = true)
    (l : List α) :
    (stableSort le l).Pairwise (fun a b => le a b = true) := by
  induction l with
  | nil => simp [stableSort]
  | cons x xs ih => exact stableInsert_sorted le htot htrans x _ ih

/-! ## C10: the Levenshtein distance is bounded by the longer length -/

theorem levRowAux_length (y : Char) :
    ∀ (as : List Char) (pj1 : Nat) (prest : List Nat) (left : Nat),
      prest.length = as.length →
      (levRowAux y as pj1 prest left).length = as.length := by
  intro as
  induction as with
  | nil => intro pj1 prest left _; simp [levRowAux]
  | cons aj as2 ih =>
    intro pj1 prest left hlen
    match prest, hlen with
    | pj :: prest2, hlen =>
      simp only [levRowAux, List.length_cons]
      rw [ih pj prest2 _ (by simpa using hlen)]

theorem levRowAux_bound (y : Char) :
    ∀ (as : List Char) (pj1 : Nat) (prest : List Nat) (left : Nat) (i k : Nat),
      prest.length = as.length →
      pj1 ≤ max i k →
      (∀ t, t < prest.length → prest.getD t 0 ≤ max i (k + 1 + t)) →
      left ≤ max (i + 1) k →
      ∀ j, j < as.length →
        (levRowAux y as pj1 prest left).getD j 0 ≤ max (i + 1) (k + 1 + j) := by
  intro as
  induction as with
  | nil => intro _ _ _ _ _ _ _ _ _ j hj; simp at hj
  | cons aj as2 ih =>
    intro pj1 prest left i k hlen hpj1 hprest hleft j hj
    match prest, hlen with
    | pj :: prest2, hlen =>
      have hpj : pj ≤ max i (k + 1) := by
        have := hprest 0 (by simp)
        simpa using this
      have hcur : (if y = aj then pj1 else 1 + min pj1 (min left pj)) ≤
          max (i + 1) (k + 1) := by
        by_cases hc : y = aj
        · simp only [hc, if_true]
          omega
        · simp only [hc, if_false]
          omega
      match j with
      | 0 =>
        simpa [levRowAux] using hcur
      | j + 1 =>
        have hj2 : j < as2.length := by simpa using hj
        have hrec := ih pj prest2
          (if y = aj then pj1 else 1 + min pj1 (min left pj)) i (k + 1)
          (by simpa using hlen) hpj
          (fun t ht => by
            have := hprest (t + 1) (by simpa using Nat.succ_lt_succ ht)
            simp only [List.getD_cons_succ] at this
            have harith : k + 1 + (t + 1) = k + 1 + 1 + t := by omega
            rw [harith] at this
            exact this)
          hcur j hj2
        have harith : k + 1 + (j + 1) = k + 1 + 1 + j := by omega
        rw [harith]
        simpa [levRowAux] using hrec

theorem levNextRow_length (a : List Char) (y : Char) (i : Nat) (prev : List Nat)
    (hlen : prev.length = a.length + 1) :
    (levNextRow a y i prev).length = a.length + 1 := by
  simp only [levNextRow, List.length_cons]
  rw [levRowAux_length y a _ _ _ (by cases prev with
    | nil => simp at hlen
    | cons p ps => simpa using hlen)]

theorem levNextRow_bound (a : List Char) (y : Char) (i : Nat) (prev : List Nat)
    (hlen : prev.length = a.length + 1)
    (hprev : ∀ j, j < prev.length → prev.getD j 0 ≤ max i j) :
    ∀ j, j < a.length + 1 → (levNextRow a y (i + 1) prev).getD j 0 ≤ max (i + 1) j := by
  intro j hj
  match prev, hlen with
  | p0 :: prest, hlen =>
    match j with
    | 0 =>
      simp [levNextRow]
    | j + 1 =>
      have hj2 : j < a.length := by omega
      have hb := levRowAux_bound y a p0 prest (i + 1) i 0
        (by simpa using hlen)
        (by simpa using hprev 0 (by simp))
        (fun t ht => by
          have h2 := hprev (t + 1) (by simp only [List.length_cons]; omega)
          simp only [List.getD_cons_succ] at h2
          have harith : max i (t + 1) = max i (0 + 1 + t) := by omega
          rw [harith] at h2
          exact h2)
        (by omega)
        j hj2
      simp only [levNextRow, List.getD_cons_succ, List.headD_cons, List.tail_cons]
      have harith : max (i + 1) (0 + 1 + j) = max (i + 1) (j + 1) := by omega
      rw [harith] at hb
      exact hb

theorem levRows_bound (a : List Char) :
    ∀ (bs : List Char) (i : Nat) (prev : List Nat),
      prev.length = a.length + 1 →
      (∀ j, j < prev.length → prev.getD j 0 ≤ max i j) →
      (levRows a bs (i + 1) prev).length = a.length + 1 ∧
        ∀ j, j < a.length + 1 →
          (levRows a bs (i + 1) prev).getD j 0 ≤ max (i + bs.length) j := by
  intro bs
  induction bs with
  | nil =>
    intro i prev hlen hprev
    refine ⟨hlen, ?_⟩
    intro j hj
    simpa [levRows] using hprev j (by omega)
  | cons y ys ih =>
    intro i prev hlen hprev
    have hrowlen := levNextRow_length a y (i + 1) prev hlen
    have hrow := levNextRow_bound a y i prev hlen hprev
    have := ih (i + 1) (levNextRow a y (i + 1) prev) hrowlen
      (fun j hj => hrow j (by omega))
    simp only [levRows]
    refine ⟨this.1, ?_⟩
    intro j hj
    have := this.2 j hj
    have harith : i + 1 + ys.length = i + (ys.length + 1) := by omega
    rw [harith] at this
    simpa using this

/-- The distance never exceeds the longer length. -/
theorem levenshteinDistance_le (a b : String) :
    levenshteinDistance a b ≤ max a.length b.length := by
  unfold levenshteinDistance
  by_cases ha : a.length = 0
  · simp only [ha, if_true]
    omega
  · by_cases hb : b.length = 0
    · simp only [ha, hb, if_false, if_true]
      omega
    · simp only [ha, hb, if_false]
      have hdata : a.data.length = a.length := rfl
      have hrange : (List.range (a.length + 1)).length = a.data.length + 1 := by
        rw [hdata]; exact List.length_range _
      have hrangeD : ∀ j, j < (List.range (a.length + 1)).length →
          (List.range (a.length + 1)).getD j 0 ≤ max 0 j := by
        intro j hj
        rw [List.getD_eq_getElem _ _ (by simpa using hj)]
        simp [List.getElem_range]
      have hmain := levRows_bound a.data b.data 0 (List.range (a.length + 1))
        hrange hrangeD
      have hblen : b.data.length = b.length := rfl
      have hfin := hmain.2 a.length (by omega)
      rw [hblen] at hfin
      simp only [Nat.zero_add] at hfin
      calc (levRows a.data b.data 1 (List.range (a.length + 1))).getD a.length 0
          ≤ max b.length a.length := hfin
        _ ≤ max a.length b.length := by omega

theorem levenshteinSimilarity_eq (a b : String) :
    levenshteinSimilarity a b =
      if max a.length b.length = 0 then 1
      else 1 - (levenshteinDistance a b : ℚ) / ((max a.length b.length : Nat) : ℚ) :=
  rfl

/-- C10: `levenshteinSimilarity` always lies in `[0, 1]`, because the
distance never exceeds the longer length. -/
theorem levenshteinSimilarity_bounded (a b : String) :
    levenshteinDistance a b ≤ max a.length b.length ∧
      0 ≤ levenshteinSimilarity a b ∧ levenshteinSimilarity a b ≤ 1 := by
  refine ⟨levenshteinDistance_le a b, ?_, ?_⟩
  · rw [levenshteinSimilarity_eq]
    by_cases h : max a.length b.length = 0
    · simp [h]
    · simp only [h, if_false]
      have hd := levenshteinDistance_le a b
      have hpos : (0 : ℚ) < ((max a.length b.length : Nat) : ℚ) := by
        exact_mod_cast Nat.pos_of_ne_zero h
      have hle : (levenshteinDistance a b : ℚ) / ((max a.length b.length : Nat) : ℚ) ≤ 1 := by
        rw [div_le_one hpos]
        exact_mod_cast hd
      linarith
  · rw [levenshteinSimilarity_eq]
    by_cases h : max a.length b.length = 0
    · simp [h]
    · simp only [h, if_false]
      have hpos : (0 : ℚ) < ((max a.length b.length : Nat) : ℚ) := by
        exact_mod_cast Nat.pos_of_ne_zero h
      have hge : (0 : ℚ) ≤ (levenshteinDistance a b : ℚ) / ((max a.length b.length : Nat) : ℚ) :=
        div_nonneg (by positivity) (le_of_lt hpos)
      linarith

/-! ## C2: normalization is neither idempotent nor case-insensitive

The hexadecimal-address pattern matches a literal lowercase `0x`
prefix but the final lowercasing step produces such prefixes, so a
second normalization pass can rewrite the output of the first, and two
inputs differing only in the case of the `x` normalize differently. -/

/-- C2 (counterexample): `normalize` is not idempotent — the input
`"0XAB"` normalizes to `"0xab"`, which a second pass rewrites to
`"<addr>"` — and not case-insensitive — `"0XAB"` and `"0xab"` differ
only in letter case yet normalize to `"0xab"` and `"<addr>"`. -/
theorem normalizeErrorMessage_claim_counterexample :
    normalizeErrorMessage (normalizeErrorMessage "0XAB") ≠ normalizeErrorMessage "0XAB" ∧
      normalizeErrorMessage "0XAB" ≠ normalizeErrorMessage "0xab" ∧
      normalizeErrorMessage "0XAB" = "0xab" ∧
      normalizeErrorMessage "0xab" = "<addr>" := by
  decide

/-- C2 (amended): the specification's concrete instance holds —
`normalize("TypeError") == normalize("typeerror")` — and normalization
is idempotent at that value; idempotence and case-insensitivity do not
hold for all strings. -/
theorem normalizeErrorMessage_amended :
    normalizeErrorMessage "TypeError" = normalizeErrorMessage "typeerror" ∧
      normalizeErrorMessage (normalizeErrorMessage "TypeError") =
        normalizeErrorMessage "TypeError" := by
  decide

/-! ## C6: the `cosineSimilarity` contract -/

/-- C6: `cosineSimilarity` fails exactly on a length mismatch; under
the equal-length precondition it always returns a value, returning 0
whenever either vector has zero magnitude (a zero sum of squares) and
in particular for two empty vectors. -/
theorem cosineSimilarity_unfold (sqrt : ℚ → ℚ) (a b : List ℚ) :
    cosineSimilarity sqrt a b =
      if a.length ≠ b.length then .error "Vector length mismatch"
      else if a.length = 0 then .ok 0
      else if sqrt ((a.map fun x => x * x).sum) * sqrt ((b.map fun x => x * x).sum) = 0
        then .ok 0
      else .ok (((a.zip b).map fun p => p.1 * p.2).sum /
        (sqrt ((a.map fun x => x * x).sum) * sqrt ((b.map fun x => x * x).sum))) :=
  rfl

theorem cosineSimilarity_contract (sqrt : ℚ → ℚ) (hsqrt : sqrt 0 = 0)
    (a b : List ℚ) :
    ((cosineSimilarity sqrt a b).isOk = false ↔ a.length ≠ b.length) ∧
      (a.length = b.length →
        ((a.map fun x => x * x).sum = 0 ∨ (b.map fun x => x * x).sum = 0) →
        cosineSimilarity sqrt a b = .ok 0) ∧
      cosineSimilarity sqrt [] [] = .ok 0 := by
  refine ⟨?_, ?_, rfl⟩
  · rw [cosineSimilarity_unfold]
    by_cases hlen : a.length = b.length
    · rw [if_neg (by simp [hlen])]
      constructor
      · intro h
        exfalso
        by_cases h0 : a.length = 0
        · rw [if_pos h0] at h
          simp [Except.isOk, Except.toBool] at h
        · rw [if_neg h0] at h
          by_cases hm : sqrt ((a.map fun x => x * x).sum) *
              sqrt ((b.map fun x => x * x).sum) = 0
          · rw [if_pos hm] at h
            simp [Except.isOk, Except.toBool] at h
          · rw [if_neg hm] at h
            simp [Except.isOk, Except.toBool] at h
      · intro h
        exact absurd hlen h
    · rw [if_pos hlen]
      exact ⟨fun _ => hlen, fun _ => rfl⟩
  · intro hlen hz
    rw [cosineSimilarity_unfold, if_neg (by simp [hlen])]
    by_cases h0 : a.length = 0
    · rw [if_pos h0]
    · rw [if_neg h0]
      have hmag : sqrt ((a.map fun x => x * x).sum) *
          sqrt ((b.map fun x => x * x).sum) = 0 := by
        rcases hz with hz | hz
        · rw [hz, hsqrt, zero_mul]
        · rw [hz, hsqrt, mul_zero]
      rw [if_pos hmag]

/-- C6 (witness): the contract at `sqrt := id`, `a := [0, 0]`,
`b := [3, 4]`. -/
theorem cosineSimilarity_contract_witness :
    ((cosineSimilarity id [(0 : ℚ), 0] [3, 4]).isOk = false ↔
        ([(0 : ℚ), 0].length ≠ [(3 : ℚ), 4].length)) ∧
      ([(0 : ℚ), 0].length = [(3 : ℚ), 4].length →
        (([(0 : ℚ), 0].map fun x => x * x).sum = 0 ∨
          (([(3 : ℚ), 4]).map fun x => x * x).sum = 0) →
        cosineSimilarity id [(0 : ℚ), 0] [3, 4] = .ok 0) ∧
      cosineSimilarity id ([] : List ℚ) [] = .ok 0 :=
  cosineSimilarity_contract id rfl [0, 0] [3, 4]

/-! ## C9: the float32 buffer round trip

The byte layout (four bytes per element, little-endian) is concrete;
the IEEE-754 float-to-bits conversion pair of `writeFloatLE` and
`readFloatLE` is abstracted as `encodeF` and `decodeF`, whose round
trip is single-precision rounding (`round32`). -/

theorem bytesLE4_join (n : Nat) (h : n < 2 ^ 32) :
    n % 256 + 256 * (n / 256 % 256) + 65536 * (n / 65536 % 256) +
      16777216 * (n / 16777216 % 256) = n := by
  omega

/-- C9: `unpack (pack v)` is defined and recovers `v` element-wise up
to single-precision rounding; the buffer holds four bytes per element,
the empty vector packs to the empty buffer and the empty buffer
unpacks to the empty vector. -/
theorem floatBuffer_roundtrip (encodeF : ℚ → Nat) (decodeF : Nat → ℚ)
    (round32 : ℚ → ℚ) (henc : ∀ x, encodeF x < 2 ^ 32)
    (hdec : ∀ x, decodeF (encodeF x) = round32 x) :
    (∀ v : List ℚ,
      bufferToFloatArray decodeF (floatArrayToBuffer encodeF v) = some (v.map round32) ∧
        (floatArrayToBuffer encodeF v).length = 4 * v.length) ∧
      floatArrayToBuffer encodeF [] = [] ∧
      bufferToFloatArray decodeF ([] : List Nat) = some [] := by
  refine ⟨?_, by simp [floatArrayToBuffer], by simp [bufferToFloatArray]⟩
  intro v
  induction v with
  | nil => simp [floatArrayToBuffer, bufferToFloatArray]
  | cons x v ih =>
    have hbuf : floatArrayToBuffer encodeF (x :: v) =
        encodeF x % 256 :: encodeF x / 256 % 256 :: encodeF x / 65536 % 256 ::
          encodeF x / 16777216 % 256 :: floatArrayToBuffer encodeF v := by
      simp [floatArrayToBuffer, bytesLE4]
    constructor
    · rw [hbuf]
      simp only [bufferToFloatArray, ih.1, Option.map_some]
      rw [bytesLE4_join (encodeF x) (henc x), hdec x]
      simp
    · rw [hbuf]
      simp only [List.length_cons, ih.2]
      omega

/-- The bit-pattern encoder used to witness the round trip. -/
def w9enc : ℚ → Nat := fun x => x.num.toNat % 2 ^ 32

/-- The matching decoder. -/
def w9dec : Nat → ℚ := fun n => (n : ℚ)

/-- Their composite, the rounding the witness round trip performs. -/
def w9round : ℚ → ℚ := fun x => w9dec (w9enc x)

/-- C9 (witness): the round trip at a concrete codec and the concrete
vector `[3]`. -/
theorem floatBuffer_roundtrip_witness :
    (bufferToFloatArray w9dec (floatArrayToBuffer w9enc [3]) =
        some ([(3 : ℚ)].map w9round) ∧
      (floatArrayToBuffer w9enc [(3 : ℚ)]).length = 4 * [(3 : ℚ)].length) ∧
      bufferToFloatArray w9dec (floatArrayToBuffer w9enc [3]) = some [(3 : ℚ)] :=
  ⟨(floatBuffer_roundtrip w9enc w9dec w9round
      (fun x => Nat.mod_lt _ (by decide)) (fun _ => rfl)).1 [3],
    by decide⟩

/-! ## C1: insert-or-increment and fingerprint uniqueness -/

/-- Tag creation touches only the tag tables. -/
theorem createTag_skeleton (name : String) (cat : Option String) (db : Db) :
    ((createTag name cat db).2).errors = db.errors ∧
      ((createTag name cat db).2).nextErrorId = db.nextErrorId := by
  simp [createTag]

/-- `getOrCreateTags` touches only the tag tables. -/
theorem getOrCreateTags_skeleton (cat : Option String) :
    ∀ (names : List String) (db : Db),
      ((getOrCreateTags cat names db).2).errors = db.errors ∧
        ((getOrCreateTags cat names db).2).nextErrorId = db.nextErrorId := by
  intro names
  induction names with
  | nil => intro db; simp [getOrCreateTags]
  | cons name rest ih =>
    intro db
    simp only [getOrCreateTags]
    split
    · exact ih db
    · split
      · exact ih db
      · have hih := ih ((createTag (jsTrim (jsToLower name)) cat db).2)
        have hcs := createTag_skeleton (jsTrim (jsToLower name)) cat db
        exact ⟨hih.1.trans hcs.1, hih.2.trans hcs.2⟩

/-- `addTagsToError` touches only the junction table. -/
theorem addTagsToError_skeleton (errorId : Nat) :
    ∀ (tagIds : List Nat) (db : Db),
      (addTagsToError errorId tagIds db).errors = db.errors ∧
        (addTagsToError errorId tagIds db).nextErrorId = db.nextErrorId := by
  intro tagIds
  induction tagIds with
  | nil => intro db; simp [addTagsToError]
  | cons tagId rest ih =>
    intro db
    simp only [addTagsToError]
    split
    · exact ih db
    · have hih := ih { db with errorTags := db.errorTags ++ [(errorId, tagId)] }
      simpa using hih

/-- The update branch of `recordError`. -/
theorem recordError_found (sha256 : String → String) (input : ErrorInput) (db : Db)
    (row : ErrorRow)
    (hfind : db.errors.find? (fun e => e.hash = recordErrorHash sha256 input) =
      some row) :
    (recordError sha256 input db).1 = row.id ∧
      ((recordError sha256 input db).2).errors =
        (db.errors.map fun e =>
          if e.id = row.id then
            { e with occurrenceCount := e.occurrenceCount + 1,
                     lastSeenAt := db.now }
          else e) ∧
      ((recordError sha256 input db).2).nextErrorId = db.nextErrorId := by
  simp only [recordError, hfind]
  exact ⟨by trivial, by trivial, by trivial⟩

/-- The insert branch of `recordError`: the fresh row is appended and
the id counter advances; the tag bookkeeping leaves the errors table
alone. -/
theorem recordError_fresh (sha256 : String → String) (input : ErrorInput) (db : Db)
    (hfind : db.errors.find? (fun e => e.hash = recordErrorHash sha256 input) =
      none) :
    (recordError sha256 input db).1 = db.nextErrorId ∧
      ((recordError sha256 input db).2).errors =
        db.errors ++ [freshErrorRow sha256 input db] ∧
      ((recordError sha256 input db).2).nextErrorId = db.nextErrorId + 1 := by
  have hdb2 : ∀ db2 : Db,
      ((if jsSetList (input.tags ++ extractTags input.message (recordErrorType input))
          = [] then db2
        else
          addTagsToError db.nextErrorId
            (((getOrCreateTags none
              (jsSetList (input.tags ++
                extractTags input.message (recordErrorType input))) db2).1).map
              (fun t => t.id))
            ((getOrCreateTags none
              (jsSetList (input.tags ++
                extractTags input.message (recordErrorType input))) db2).2)).errors
        = db2.errors ∧
      (if jsSetList (input.tags ++ extractTags input.message (recordErrorType input))
          = [] then db2
        else
          addTagsToError db.nextErrorId
            (((getOrCreateTags none
              (jsSetList (input.tags ++
                extractTags input.message (recordErrorType input))) db2).1).map
              (fun t => t.id))
            ((getOrCreateTags none
              (jsSetList (input.tags ++
                extractTags input.message (recordErrorType input))) db2).2)).nextErrorId
        = db2.nextErrorId) := by
    intro db2
    have hgs := getOrCreateTags_skeleton none
      (jsSetList (input.tags ++ extractTags input.message (recordErrorType input)))
      db2
    have has := addTagsToError_skeleton db.nextErrorId
      (((getOrCreateTags none
        (jsSetList (input.tags ++
          extractTags input.message (recordErrorType input))) db2).1).map
        (fun t => t.id))
      ((getOrCreateTags none
        (jsSetList (input.tags ++
          extractTags input.message (recordErrorType input))) db2).2)
    constructor
    · split
      · rfl
      · exact has.1.trans hgs.1
    · split
      · rfl
      · exact has.2.trans hgs.2
  simp only [recordError, hfind]
  exact ⟨by trivial, (hdb2 _).1, (hdb2 _).2⟩

/-- The well-formedness the schema enforces on the errors table:
unique surrogate ids below the id counter and a unique hash column. -/
def DbWF (db : Db) : Prop :=
  (db.errors.map (fun e => e.id)).Nodup ∧
    (db.errors.map (fun e => e.hash)).Nodup ∧
    ∀ r ∈ db.errors, r.id < db.nextErrorId

/-- `recordError` preserves the errors-table invariants. -/
theorem recordError_WF (sha256 : String → String) (input : ErrorInput) (db : Db)
    (hwf : DbWF db) : DbWF ((recordError sha256 input db).2) := by
  rcases hwf with ⟨hid, hhash, hbound⟩
  cases hfind : db.errors.find? (fun e => e.hash = recordErrorHash sha256 input) with
  | some row =>
    rcases recordError_found sha256 input db row hfind with ⟨_, herr, hnext⟩
    refine ⟨?_, ?_, ?_⟩
    · rw [herr]
      have hmap : (db.errors.map fun e =>
          if e.id = row.id then
            { e with occurrenceCount := e.occurrenceCount + 1, lastSeenAt := db.now }
          else e).map (fun e => e.id) = db.errors.map (fun e => e.id) := by
        rw [List.map_map]
        refine List.map_congr_left ?_
        intro e _
        by_cases h : e.id = row.id <;> simp [h]
      rw [hmap]; exact hid
    · rw [herr]
      have hmap : (db.errors.map fun e =>
          if e.id = row.id then
            { e with occurrenceCount := e.occurrenceCount + 1, lastSeenAt := db.now }
          else e).map (fun e => e.hash) = db.errors.map (fun e => e.hash) := by
        rw [List.map_map]
        refine List.map_congr_left ?_
        intro e _
        by_cases h : e.id = row.id <;> simp [h]
      rw [hmap]; exact hhash
    · intro r hr
      rw [herr] at hr
      rw [hnext]
      rcases List.mem_map.mp hr with ⟨e, he, hre⟩
      have hb := hbound e he
      by_cases h : e.id = row.id
      · simp only [h, if_true] at hre
        have hrid : r.id = row.id := by rw [← hre]
        omega
      · simp only [h, if_false] at hre
        have hrid : r.id = e.id := by rw [← hre]
        omega
  | none =>
    rcases recordError_fresh sha256 input db hfind with ⟨_, herr, hnext⟩
    have hfreshid : ∀ e ∈ db.errors, e.id ≠ db.nextErrorId := by
      intro e he
      have := hbound e he
      omega
    have hfreshhash : ∀ e ∈ db.errors, e.hash ≠ recordErrorHash sha256 input := by
      intro e he
      have := List.find?_eq_none.mp hfind e he
      simpa using this
    refine ⟨?_, ?_, ?_⟩
    · rw [herr]
      rw [List.map_append]
      rw [List.nodup_append]
      refine ⟨hid, by simp, ?_⟩
      intro x hx
      rcases List.mem_map.mp hx with ⟨e, he, hxe⟩
      simp only [freshErrorRow, List.map_cons, List.map_nil, List.mem_singleton]
      intro hcon
      exact hfreshid e he (by rw [hxe]; exact hcon)
    · rw [herr]
      rw [List.map_append]
      rw [List.nodup_append]
      refine ⟨hhash, by simp, ?_⟩
      intro x hx
      rcases List.mem_map.mp hx with ⟨e, he, hxe⟩
      simp only [freshErrorRow, List.map_cons, List.map_nil, List.mem_singleton]
      intro hcon
      exact hfreshhash e he (by rw [hxe]; exact hcon)
    · intro r hr
      rw [herr] at hr
      rw [hnext]
      rcases List.mem_append.mp hr with hr | hr
      · have := hbound r hr
        omega
      · simp only [List.mem_singleton] at hr
        rw [hr]
        simp only [freshErrorRow]
        omega

/-- C1: recording the same input twice against a store whose
fingerprints are fresh for it yields the same identity id both times
and leaves the stored row at occurrence count 2; and any sequence of
`recordError` calls keeps the fingerprint hashes of the error rows
pairwise distinct. -/
theorem recordError_insert_or_increment (sha256 : String → String) (db : Db)
    (hwf : DbWF db) :
    (∀ input : ErrorInput,
      (∀ r ∈ db.errors, r.hash ≠ recordErrorHash sha256 input) →
      (recordError sha256 input db).1 =
          (recordError sha256 input (recordError sha256 input db).2).1 ∧
        ∃ r, ((recordError sha256 input (recordError sha256 input db).2).2).errors.find?
            (fun e => e.id = (recordError sha256 input db).1) = some r ∧
          r.occurrenceCount = 2) ∧
      ∀ inputs : List ErrorInput,
        ((inputs.foldl (fun d i => (recordError sha256 i d).2) db).errors.map
          (fun e => e.hash)).Nodup := by
  constructor
  · intro input hfreshhash
    have hfind : db.errors.find? (fun e => e.hash = recordErrorHash sha256 input) =
        none := by
      rw [List.find?_eq_none]
      intro e he
      simpa using hfreshhash e he
    rcases recordError_fresh sha256 input db hfind with ⟨hid1, herr, _⟩
    set row := freshErrorRow sha256 input db with hrow
    have hrowhash : row.hash = recordErrorHash sha256 input := rfl
    have hrowid : row.id = db.nextErrorId := rfl
    have hfind2 : ((recordError sha256 input db).2).errors.find?
        (fun e => e.hash = recordErrorHash sha256 input) = some row := by
      rw [herr, List.find?_append, List.find?_eq_none.mpr
        (fun e he => by simpa using hfreshhash e he)]
      simp [hrowhash]
    rcases recordError_found sha256 input (recordError sha256 input db).2
      row hfind2 with ⟨hid2, herr2, _⟩
    constructor
    · rw [hid1, hid2, hrowid]
    · have hmapped : (((recordError sha256 input db).2).errors.map fun e =>
          if e.id = row.id then
            { e with occurrenceCount := e.occurrenceCount + 1,
                     lastSeenAt := ((recordError sha256 input db).2).now }
          else e) =
          db.errors ++
            [{ row with
                occurrenceCount := row.occurrenceCount + 1,
                lastSeenAt := ((recordError sha256 input db).2).now }] := by
        rw [herr, List.map_append]
        congr 1
        · refine List.map_congr_left ?_ |>.trans (List.map_id _)
          intro e he
          have : e.id ≠ row.id := by
            rw [hrowid]
            intro hcon
            have := hwf.2.2 e he
            omega
          simp [this]
        · simp
      refine ⟨{ row with
                  occurrenceCount := row.occurrenceCount + 1,
                  lastSeenAt := ((recordError sha256 input db).2).now }, ?_, rfl⟩
      rw [herr2, hmapped]
      rw [List.find?_append, List.find?_eq_none.mpr ?_]
      · simp [hid1, hrowid]
      · intro e he
        have : e.id ≠ db.nextErrorId := by
          have := hwf.2.2 e he
          omega
        simpa [hid1] using this
  · intro inputs
    suffices h : ∀ (inputs : List ErrorInput) (d : Db), DbWF d →
        DbWF (inputs.foldl (fun d i => (recordError sha256 i d).2) d) by
      exact (h inputs db hwf).2.1
    intro inputs
    induction inputs with
    | nil => intro d hd; exact hd
    | cons i rest ih =>
      intro d hd
      exact ih _ (recordError_WF sha256 i d hd)

/-- The input used to witness C1. -/
def w1input : ErrorInput := { message := "m", errorType := "c", severity := some .low }

/-- C1 (witness): recording `w1input` twice against the empty store —
the ids agree, the stored row reaches occurrence count 2, and the
computed ids and row are evaluated concretely. -/
theorem recordError_insert_or_increment_witness :
    ((recordError (fun s => s) w1input emptyDb).1 =
        (recordError (fun s => s) w1input
          (recordError (fun s => s) w1input emptyDb).2).1 ∧
      ∃ r, ((recordError (fun s => s) w1input
            (recordError (fun s => s) w1input emptyDb).2).2).errors.find?
          (fun e => e.id = (recordError (fun s => s) w1input emptyDb).1) = some r ∧
        r.occurrenceCount = 2) ∧
      (recordError (fun s => s) w1input emptyDb).1 = 0 ∧
      (((recordError (fun s => s) w1input
          (recordError (fun s => s) w1input emptyDb).2).2).errors.map
        (fun e => (e.id, e.hash, e.occurrenceCount))) = [(0, "c:m", 2)] :=
  ⟨(recordError_insert_or_increment (fun s => s) emptyDb
      (by refine ⟨by decide, by decide, ?_⟩; intro r hr; simp [emptyDb] at hr)).1
      w1input (by intro r hr; simp [emptyDb] at hr),
    by decide, by decide⟩

/-! ## C8: the stored success rate always derives from the counters -/

/-- An operation against the solutions table. -/
inductive SolutionOp where
  | record (input : SolutionInput)
  | outcome (solutionId : Nat) (success : Bool)

/-- Run one operation; a thrown precondition failure (missing parent
error or missing solution) leaves the database unchanged. -/
def applySolutionOp (db : Db) : SolutionOp → Db
  | .record input =>
    match recordSolution input db with
    | .ok p => p.2
    | .error _ => db
  | .outcome solutionId success =>
    match recordSolutionOutcome solutionId success db with
    | .ok db2 => db2
    | .error _ => db

/-- Every stored rate equals the one recomputed from the counters:
0 with no recorded outcome, successes over attempts otherwise. -/
def RatesConsistent (db : Db) : Prop :=
  ∀ row ∈ db.solutions,
    (row.successCount + row.failureCount = 0 → row.successRate = 0) ∧
      (0 < row.successCount + row.failureCount →
        row.successRate =
          (row.successCount : ℚ) / ((row.successCount : ℚ) + (row.failureCount : ℚ)))

theorem sqliteSuccessRate_consistent (s f : Nat) :
    (s + f = 0 → sqliteSuccessRate s f = 0) ∧
      (0 < s + f → sqliteSuccessRate s f = (s : ℚ) / ((s : ℚ) + (f : ℚ))) := by
  constructor
  · intro h
    simp [sqliteSuccessRate, h]
  · intro h
    rw [sqliteSuccessRate, if_neg (by omega)]

theorem applySolutionOp_consistent (db : Db) (op : SolutionOp)
    (h : RatesConsistent db) : RatesConsistent (applySolutionOp db op) := by
  cases op with
  | record input =>
    simp only [applySolutionOp]
    cases hfe : db.errors.find? (fun e => e.id = input.errorId) with
    | none => simpa [recordSolution, hfe] using h
    | some e =>
      simp only [recordSolution, hfe]
      intro row hrow
      rcases List.mem_append.mp hrow with hrow | hrow
      · exact h row hrow
      · simp only [List.mem_singleton] at hrow
        subst hrow
        exact sqliteSuccessRate_consistent 0 0
  | outcome solutionId success =>
    simp only [applySolutionOp]
    by_cases hany : db.solutions.any (fun s => s.id = solutionId)
    · simp only [recordSolutionOutcome, hany, if_true]
      intro row hrow
      rcases List.mem_map.mp hrow with ⟨s, hs, hsr⟩
      by_cases hid : s.id = solutionId
      · simp only [hid, if_true] at hsr
        subst hsr
        cases success with
        | true => exact sqliteSuccessRate_consistent (s.successCount + 1) s.failureCount
        | false => exact sqliteSuccessRate_consistent s.successCount (s.failureCount + 1)
      · simp only [hid, if_false] at hsr
        subst hsr
        exact h s hs
    · simpa [recordSolutionOutcome, hany] using h

/-- C8: after any sequence of solution recordings and outcome reports,
every solution row's stored success rate is 0 when it has no recorded
outcome and `successCount / (successCount + failureCount)` otherwise. -/
theorem successRate_recomputed (db : Db) (h : RatesConsistent db)
    (ops : List SolutionOp) :
    RatesConsistent (ops.foldl applySolutionOp db) := by
  induction ops generalizing db with
  | nil => exact h
  | cons op rest ih =>
    exact ih (applySolutionOp db op) (applySolutionOp_consistent db op h)

/-! ## C5: an exact fingerprint match short-circuits the lexical scan -/

/-- C5: whenever an error row carries the query's fingerprint (the hash
of the extracted error type and the normalized query), the search
returns exactly that one record with similarity 1.0, regardless of the
options, the similarity floor, or anything about the other rows — the
lexical scan is never consulted. -/
theorem findSimilarErrors_exact_short_circuit (sha256 : String → String)
    (message : String) (options : SearchOptions) (db : Db) (row : ErrorRow)
    (hfind : db.errors.find?
      (fun e => e.hash =
        generateErrorHash sha256 message (extractErrorType message "unknown")) =
      some row) :
    findSimilarErrors sha256 message options db =
      [({ row := row, tags := tagNamesOf row.id db }, 1)] := by
  simp only [findSimilarErrors, findErrorByMessage, getErrorByHash, hfind]
  rfl

/-! ## C4: the relevance score and the ranking of task-context results -/

/-- The `reduce`-selected best solution splits the list into a strictly
worse prefix, itself, and a no-better remainder. -/
theorem foldl_best_decomp (s0 : SolutionRow) (rest : List SolutionRow) :
    ∃ pre post,
      s0 :: rest = pre ++
          (rest.foldl (fun best s =>
            if best.successRate < s.successRate then s else best) s0) :: post ∧
        (∀ x ∈ pre, x.successRate <
          (rest.foldl (fun best s =>
            if best.successRate < s.successRate then s else best) s0).successRate) ∧
        ∀ x ∈ s0 :: rest, x.successRate ≤
          (rest.foldl (fun best s =>
            if best.successRate < s.successRate then s else best) s0).successRate := by
  induction rest generalizing s0 with
  | nil =>
    exact ⟨[], [], rfl, by simp, by simp⟩
  | cons s rest2 ih =>
    rw [List.foldl_cons]
    by_cases hc : s0.successRate < s.successRate
    · rw [if_pos hc]
      obtain ⟨pre2, post2, heq, hpre2, hall2⟩ := ih s
      refine ⟨s0 :: pre2, post2, ?_, ?_, ?_⟩
      · rw [List.cons_append, ← heq]
      · intro x hx
        rcases List.mem_cons.mp hx with hx | hx
        · rw [hx]
          exact lt_of_lt_of_le hc (hall2 s (List.mem_cons_self s rest2))
        · exact hpre2 x hx
      · intro x hx
        rcases List.mem_cons.mp hx with hx | hx
        · rw [hx]
          exact le_of_lt (lt_of_lt_of_le hc (hall2 s (List.mem_cons_self s rest2)))
        · exact hall2 x hx
    · rw [if_neg hc]
      have hsle : s.successRate ≤ s0.successRate := not_lt.mp hc
      obtain ⟨pre2, post2, heq, hpre2, hall2⟩ := ih s0
      cases pre2 with
      | nil =>
        simp only [List.nil_append] at heq
        refine ⟨[], s :: post2, ?_, by simp, ?_⟩
        · rw [List.nil_append]
          rw [List.cons.injEq] at heq ⊢
          exact ⟨heq.1, by rw [← heq.2]⟩
        · intro x hx
          have hbs0 : s0.successRate ≤ (rest2.foldl (fun best s =>
              if best.successRate < s.successRate then s else best)
                s0).successRate :=
            hall2 s0 (List.mem_cons_self s0 rest2)
          rcases List.mem_cons.mp hx with hx | hx
          · rw [hx]; exact hbs0
          · rcases List.mem_cons.mp hx with hx | hx
            · rw [hx]; exact le_trans hsle hbs0
            · exact hall2 x (List.mem_cons_of_mem s0 hx)
      | cons p pre3 =>
        simp only [List.cons_append, List.cons.injEq] at heq
        obtain ⟨hp, hrest2⟩ := heq
        refine ⟨s0 :: s :: pre3, post2, ?_, ?_, ?_⟩
        · simp only [List.cons_append, List.cons.injEq]
          exact ⟨by trivial, by trivial, hrest2⟩
        · intro x hx
          have hps0 : s0.successRate < (rest2.foldl (fun best s =>
              if best.successRate < s.successRate then s else best)
                s0).successRate := by
            have h2 := hpre2 p (List.mem_cons_self p pre3)
            rwa [← hp] at h2
          rcases List.mem_cons.mp hx with hx | hx
          · rw [hx]; exact hps0
          · rcases List.mem_cons.mp hx with hx | hx
            · rw [hx]; exact lt_of_le_of_lt hsle hps0
            · exact hpre2 x (List.mem_cons_of_mem p hx)
        · intro x hx
          rcases List.mem_cons.mp hx with hx | hx
          · rw [hx]; exact hall2 s0 (List.mem_cons_self s0 rest2)
          · rcases List.mem_cons.mp hx with hx | hx
            · rw [hx]
              exact le_trans hsle (hall2 s0 (List.mem_cons_self s0 rest2))
            · exact hall2 x (List.mem_cons_of_mem s0 hx)

/-- `find?` returns the head of the suffix once the prefix all fails
the predicate. -/
theorem find?_prefix_fails (q : α → Bool) :
    ∀ (pre : List α) (b : α) (post : List α),
      (∀ x ∈ pre, q x = false) → q b = true →
      (pre ++ b :: post).find? q = some b := by
  intro pre
  induction pre with
  | nil =>
    intro b post _ hb
    simp [List.find?_cons, hb]
  | cons p pre2 ih =>
    intro b post hpre hb
    have hp := hpre p (List.mem_cons_self p pre2)
    simp only [List.cons_append, List.find?_cons, hp]
    exact ih b post (fun x hx => hpre x (List.mem_cons_of_mem p hx)) hb

/-- The `reduce`-selected best solution is the first solution whose
success rate is at least every other's. -/
theorem specBest_eq_foldl (s0 : SolutionRow) (rest : List SolutionRow) :
    (s0 :: rest).find? (fun s => (s0 :: rest).all
        fun t => t.successRate ≤ s.successRate) =
      some (rest.foldl (fun best s =>
        if best.successRate < s.successRate then s else best) s0) := by
  obtain ⟨pre, post, heq, hpre, hall⟩ := foldl_best_decomp s0 rest
  rw [heq]
  refine find?_prefix_fails _ pre _ post ?_ ?_
  · intro x hx
    rw [Bool.eq_false_iff]
    intro hcon
    rw [List.all_eq_true] at hcon
    have hb := hcon (rest.foldl (fun best s =>
      if best.successRate < s.successRate then s else best) s0)
      (List.mem_append_right pre (List.mem_cons_self _ post))
    rw [decide_eq_true_eq] at hb
    exact absurd hb (not_le.mpr (hpre x hx))
  · rw [List.all_eq_true]
    intro t ht
    rw [decide_eq_true_eq]
    exact hall t (by rw [heq]; exact ht)


/-- C4: the relevance score computed by `calculateResultScore` is
exactly the specified formula — similarity scaled to 40, +20 for any
solution, the best solution's success rate scaled to 30 and two points
per attempt capped at 10 — and the task-context ranking returns at
most five results drawn from its input, ordered by this score
descending. -/
theorem calculateResultScore_spec :
    (∀ result : ErrorSearchResult,
      calculateResultScore result = specRelevanceScore result) ∧
      ∀ results : List ErrorSearchResult,
        (getRelevantMemoriesRank results).Pairwise
            (fun r1 r2 => calculateResultScore r2 ≤ calculateResultScore r1) ∧
          (getRelevantMemoriesRank results).length ≤ 5 ∧
          ∀ r ∈ getRelevantMemoriesRank results, r ∈ results := by
  constructor
  · intro result
    cases hsols : result.solutions with
    | nil => simp [calculateResultScore, specRelevanceScore, hsols]
    | cons s0 rest =>
      simp only [calculateResultScore, specRelevanceScore, hsols,
        specBest_eq_foldl s0 rest]
      ring_nf
  · intro results
    refine ⟨?_, ?_, ?_⟩
    · have hsorted := stableSort_sorted
        (fun r1 r2 => decide (calculateResultScore r2 ≤ calculateResultScore r1))
        (fun a b => by
          rcases le_total (calculateResultScore b) (calculateResultScore a) with h | h
          · exact Or.inl (decide_eq_true h)
          · exact Or.inr (decide_eq_true h))
        (fun a b c hab hbc => by
          rw [decide_eq_true_eq] at *
          exact le_trans hbc hab)
        results
      have htake := hsorted.sublist (List.take_sublist 5 _)
      exact htake.imp (fun h => by rwa [decide_eq_true_eq] at h)
    · exact List.length_take_le 5 _
    · intro r hr
      have := (List.take_sublist 5 _).mem hr
      rwa [stableSort_mem] at this

/-! ## C7: dimension mismatches are silently skipped, never errors -/

theorem cosineSimilarity_isOk_of_length (sqrt : ℚ → ℚ) (a b : List ℚ)
    (h : a.length = b.length) : ∃ v, cosineSimilarity sqrt a b = .ok v := by
  rw [cosineSimilarity_unfold, if_neg (by simp [h])]
  by_cases h0 : a.length = 0
  · exact ⟨0, by rw [if_pos h0]⟩
  · rw [if_neg h0]
    by_cases hm : sqrt ((a.map fun x => x * x).sum) *
        sqrt ((b.map fun x => x * x).sum) = 0
    · exact ⟨0, by rw [if_pos hm]⟩
    · exact ⟨_, by rw [if_neg hm]⟩

/-- The embedding scan never throws when every stored buffer decodes,
and every accumulated hit stems from a stored row whose decoded
dimensionality matches the query's. -/
theorem embScan_spec (sqrt : ℚ → ℚ) (decodeF : Nat → ℚ) (target : List ℚ)
    (minSim : ℚ) :
    ∀ (rows : List EmbeddingRow) (acc : List (Nat × ℚ)),
      (∀ row ∈ rows, ∃ v, bufferToFloatArray decodeF row.embedding = some v) →
      ∃ res, embScan sqrt decodeF target minSim rows acc = .ok res ∧
        ∀ x ∈ res, x ∈ acc ∨ ∃ row ∈ rows, row.errorId = x.1 ∧
          ∃ v, bufferToFloatArray decodeF row.embedding = some v ∧
            v.length = target.length := by
  intro rows
  induction rows with
  | nil =>
    intro acc _
    exact ⟨acc, rfl, fun x hx => Or.inl hx⟩
  | cons row rows2 ih =>
    intro acc hbuf
    obtain ⟨v, hv⟩ := hbuf row (List.mem_cons_self row rows2)
    have hbuf2 : ∀ r ∈ rows2, ∃ w, bufferToFloatArray decodeF r.embedding = some w :=
      fun r hr => hbuf r (List.mem_cons_of_mem row hr)
    by_cases hlen : v.length = target.length
    · obtain ⟨sim, hsim⟩ := cosineSimilarity_isOk_of_length sqrt target v hlen.symm
      by_cases hmin : minSim ≤ sim
      · obtain ⟨res, hres, hfrom⟩ := ih (acc ++ [(row.errorId, sim)]) hbuf2
        refine ⟨res, ?_, ?_⟩
        · simp only [embScan, embStep, hv, hlen, ne_eq, not_true_eq_false, if_false,
            hsim, hmin, if_true]
          exact hres
        · intro x hx
          rcases hfrom x hx with hx2 | hfound
          · rcases List.mem_append.mp hx2 with hx3 | hx3
            · exact Or.inl hx3
            · simp only [List.mem_singleton] at hx3
              exact Or.inr ⟨row, List.mem_cons_self row rows2,
                by rw [hx3], v, hv, hlen⟩
          · rcases hfound with ⟨r, hr, hrid, w, hw, hwlen⟩
            exact Or.inr ⟨r, List.mem_cons_of_mem row hr, hrid, w, hw, hwlen⟩
      · obtain ⟨res, hres, hfrom⟩ := ih acc hbuf2
        refine ⟨res, ?_, ?_⟩
        · simp only [embScan, embStep, hv, hlen, ne_eq, not_true_eq_false, if_false,
            hsim, hmin, if_false]
          exact hres
        · intro x hx
          rcases hfrom x hx with hx2 | hfound
          · exact Or.inl hx2
          · rcases hfound with ⟨r, hr, hrid, w, hw, hwlen⟩
            exact Or.inr ⟨r, List.mem_cons_of_mem row hr, hrid, w, hw, hwlen⟩
    · obtain ⟨res, hres, hfrom⟩ := ih acc hbuf2
      refine ⟨res, ?_, ?_⟩
      · simp only [embScan, embStep, hv, hlen, ne_eq, not_false_eq_true, if_true]
        exact hres
      · intro x hx
        rcases hfrom x hx with hx2 | hfound
        · exact Or.inl hx2
        · rcases hfound with ⟨r, hr, hrid, w, hw, hwlen⟩
          exact Or.inr ⟨r, List.mem_cons_of_mem row hr, hrid, w, hw, hwlen⟩

/-- C7: when every stored buffer decodes, semantic search never throws;
every returned error stems from a stored embedding of the query's
dimensionality, and a stored embedding of a different dimensionality
never contributes a result. -/
theorem findSimilarByEmbedding_skips_mismatched (sqrt : ℚ → ℚ)
    (decodeF : Nat → ℚ) (target : List ℚ) (options : SearchOptions) (db : Db)
    (hbuf : ∀ row ∈ db.embeddings,
      ∃ v, bufferToFloatArray decodeF row.embedding = some v)
    (hnodup : (db.embeddings.map (fun r => r.errorId)).Nodup) :
    ∃ l, findSimilarByEmbedding sqrt decodeF target options db = .ok l ∧
      (∀ x ∈ l, ∃ row ∈ db.embeddings, row.errorId = x.1.row.id ∧
        ∃ v, bufferToFloatArray decodeF row.embedding = some v ∧
          v.length = target.length) ∧
      ∀ row ∈ db.embeddings,
        (∀ v, bufferToFloatArray decodeF row.embedding = some v →
          v.length ≠ target.length) →
        ∀ x ∈ l, x.1.row.id ≠ row.errorId := by
  obtain ⟨res, hres, hfrom⟩ := embScan_spec sqrt decodeF target
    (options.minSimilarity.getD (7 / 10)) db.embeddings [] hbuf
  have horigin : ∀ x ∈ ((stableSort (fun r1 r2 => decide (r2.2 ≤ r1.2)) res).take
      (options.limit.getD 10)).filterMap
        (fun r => (getErrorById r.1 db).map fun e => (e, r.2)),
      ∃ row ∈ db.embeddings, row.errorId = x.1.row.id ∧
        ∃ v, bufferToFloatArray decodeF row.embedding = some v ∧
          v.length = target.length := by
    intro x hx
    rcases List.mem_filterMap.mp hx with ⟨r, hr, hmap⟩
    rcases Option.map_eq_some'.mp hmap with ⟨e, he, hxe⟩
    have hrid : e.row.id = r.1 := by
      rcases Option.map_eq_some'.mp he with ⟨e0, he0, hee⟩
      have hp := List.find?_some he0
      rw [decide_eq_true_eq] at hp
      rw [← hee]
      exact hp
    have hrin : r ∈ res := by
      have := (List.take_sublist _ _).mem hr
      rwa [stableSort_mem] at this
    rcases hfrom r hrin with hx2 | hfound
    · simp at hx2
    · rcases hfound with ⟨row, hrow, hrowid, v, hv, hvlen⟩
      refine ⟨row, hrow, ?_, v, hv, hvlen⟩
      rw [← hxe]
      dsimp only
      rw [hrid, hrowid]
  refine ⟨_, ?_, horigin, ?_⟩
  · simp only [findSimilarByEmbedding, hres]
  · intro row hrow hmis x hx
    rcases horigin x hx with ⟨row2, hrow2, hrow2id, v, hv, hvlen⟩
    intro hcon
    have hsame : row2.errorId = row.errorId := by rw [hrow2id, hcon]
    have hr2r : row2 = row :=
      List.inj_on_of_nodup_map hnodup hrow2 hrow hsame
    rw [hr2r] at hv
    exact hmis v hv hvlen

/-! ## C3: the merge of the semantic and lexical strategies -/

theorem mergeFold_track (db : Db) (mt : ℚ → MatchType) :
    ∀ (l : List (ErrorWithTags × ℚ)) (acc : List ErrorSearchResult × List Nat),
      acc.2 = acc.1.map (fun r => r.error.row.id) →
      (l.foldl (mergeStep db mt) acc).2 =
        (l.foldl (mergeStep db mt) acc).1.map (fun r => r.error.row.id) := by
  intro l
  induction l with
  | nil => intro acc h; exact h
  | cons p l2 ih =>
    intro acc h
    rw [List.foldl_cons]
    refine ih (mergeStep db mt acc p) ?_
    simp only [mergeStep]
    split
    · exact h
    · simp [h]

theorem mergeFold_nodup (db : Db) (mt : ℚ → MatchType) :
    ∀ (l : List (ErrorWithTags × ℚ)) (acc : List ErrorSearchResult × List Nat),
      acc.2 = acc.1.map (fun r => r.error.row.id) → acc.2.Nodup →
      ((l.foldl (mergeStep db mt) acc).2).Nodup := by
  intro l
  induction l with
  | nil => intro acc _ h2; exact h2
  | cons p l2 ih =>
    intro acc h h2
    rw [List.foldl_cons]
    refine ih (mergeStep db mt acc p) ?_ ?_
    · simp only [mergeStep]
      split
      · exact h
      · simp [h]
    · simp only [mergeStep]
      split
      · exact h2
      · refine List.Nodup.append h2 (by simp) ?_
        intro a ha
        simp only [List.mem_singleton]
        intro hcon
        rename_i hnotin
        rw [hcon] at ha
        exact hnotin ha

theorem mergeFold_prefix (db : Db) (mt : ℚ → MatchType) :
    ∀ (l : List (ErrorWithTags × ℚ)) (acc : List ErrorSearchResult × List Nat),
      ∃ extra, (l.foldl (mergeStep db mt) acc).1 = acc.1 ++ extra := by
  intro l
  induction l with
  | nil => intro acc; exact ⟨[], by simp⟩
  | cons p l2 ih =>
    intro acc
    rw [List.foldl_cons]
    obtain ⟨extra, hextra⟩ := ih (mergeStep db mt acc p)
    rw [hextra]
    simp only [mergeStep]
    split
    · exact ⟨extra, rfl⟩
    · rw [List.append_assoc]
      exact ⟨_, rfl⟩

theorem mergeFold_covers (db : Db) (mt : ℚ → MatchType) :
    ∀ (l : List (ErrorWithTags × ℚ)) (acc : List ErrorSearchResult × List Nat),
      acc.2 = acc.1.map (fun r => r.error.row.id) →
      (acc.2 ++ l.map (fun p => p.1.row.id)).Nodup →
      ∀ p ∈ l, ∃ r ∈ (l.foldl (mergeStep db mt) acc).1,
        r.error = p.1 ∧ r.similarity = some p.2 ∧ r.matchType = mt p.2 := by
  intro l
  induction l with
  | nil => intro acc _ _ p hp; simp at hp
  | cons q l2 ih =>
    intro acc htrack hnd p hp
    have hqnot : q.1.row.id ∉ acc.2 := by
      rcases List.nodup_append.mp hnd with ⟨_, _, hdisj⟩
      intro hin
      exact hdisj hin (by simp)
    have hstep : mergeStep db mt acc q =
        (acc.1 ++
          [{ error := q.1,
             solutions := getSolutionsForError q.1.row.id db,
             similarity := some q.2,
             matchType := mt q.2 }],
          acc.2 ++ [q.1.row.id]) := by
      simp only [mergeStep]
      rw [if_neg hqnot]
    rw [List.foldl_cons]
    rcases List.mem_cons.mp hp with hpq | hp2
    · obtain ⟨extra, hextra⟩ := mergeFold_prefix db mt l2 (mergeStep db mt acc q)
      refine ⟨{ error := q.1,
                 solutions := getSolutionsForError q.1.row.id db,
                 similarity := some q.2,
                 matchType := mt q.2 }, ?_, ?_, ?_, ?_⟩
      · rw [hextra, hstep]
        simp
      · rw [hpq]
      · rw [hpq]
      · rw [hpq]
    · refine ih (mergeStep db mt acc q) ?_ ?_ p hp2
      · rw [hstep]
        simp [htrack]
      · rw [hstep]
        have : (acc.2 ++ [q.1.row.id]) ++ l2.map (fun p => p.1.row.id) =
            acc.2 ++ (q.1.row.id :: l2.map (fun p => p.1.row.id)) := by
          simp
        rw [this]
        simpa using hnd

/-- C3 (amended): with the semantic strategy enabled and succeeding
with result list `S`, the merged list of `findSimilar` never repeats
an error id; every semantic result appears in it with the similarity
score the semantic strategy computed — the score of the first strategy
to find the error wins, even when the lexical strategy also returns
that error — and the final list repeats no id, is ordered by
similarity descending and is truncated to the requested limit. -/
theorem findSimilar_merge_amended (sqrt : ℚ → ℚ) (decodeF : Nat → ℚ)
    (sha256 : String → String) (queryGen : Except String (List ℚ))
    (errorMessage : String) (options : SearchOptions) (db : Db)
    (emb : List ℚ) (S : List (ErrorWithTags × ℚ))
    (hinc : options.includeEmbeddings ≠ some false)
    (hgen : queryGen = .ok emb)
    (hS : findSimilarByEmbedding sqrt decodeF emb
        { limit := some (jsOrNat options.limit 5),
          minSimilarity := some (jsOrQ options.minSimilarity (7 / 10)) } db =
      .ok S)
    (hnodup : (S.map (fun p => p.1.row.id)).Nodup) :
    ((findSimilarCombined sqrt decodeF sha256 true queryGen errorMessage
        options db).map (fun r => r.error.row.id)).Nodup ∧
      (∀ p ∈ S, ∃ r ∈ findSimilarCombined sqrt decodeF sha256 true queryGen
          errorMessage options db,
        r.error = p.1 ∧ r.similarity = some p.2 ∧ r.matchType = .semantic) ∧
      ((findSimilar sqrt decodeF sha256 true queryGen errorMessage options
          db).map (fun r => r.error.row.id)).Nodup ∧
      (findSimilar sqrt decodeF sha256 true queryGen errorMessage options
          db).Pairwise
        (fun r1 r2 => r2.similarity.getD 0 ≤ r1.similarity.getD 0) ∧
      (findSimilar sqrt decodeF sha256 true queryGen errorMessage options
          db).length ≤ jsOrNat options.limit 10 := by
  have hsem : findSimilarSemanticPhase sqrt decodeF true queryGen options db =
      S.foldl (mergeStep db (fun _ => .semantic)) ([], []) := by
    simp only [findSimilarSemanticPhase, hgen, hS]
    split
    · rfl
    · rename_i hcond
      exact absurd ⟨by trivial, hinc⟩ hcond
  have htrack : (S.foldl (mergeStep db (fun _ => .semantic)) ([], [])).2 =
      (S.foldl (mergeStep db (fun _ => .semantic)) ([], [])).1.map
        (fun r => r.error.row.id) :=
    mergeFold_track db _ S ([], []) rfl
  have hsemnodup : ((S.foldl (mergeStep db (fun _ => .semantic)) ([], [])).2).Nodup :=
    mergeFold_nodup db _ S ([], []) rfl (by simp)
  have hcombeq : findSimilarCombined sqrt decodeF sha256 true queryGen errorMessage
      options db =
      ((findSimilarErrors sha256 errorMessage
          { options with limit := some (jsOrNat options.limit 10 -
              (S.foldl (mergeStep db (fun _ => .semantic)) ([], [])).1.length) }
          db).foldl (mergeStep db (fun s => if s = 1 then .exact else .hash))
        (S.foldl (mergeStep db (fun _ => .semantic)) ([], []))).1 := by
    simp only [findSimilarCombined, hsem]
  have hcombnodup : ((findSimilarCombined sqrt decodeF sha256 true queryGen
      errorMessage options db).map (fun r => r.error.row.id)).Nodup := by
    rw [hcombeq, ← mergeFold_track db _ _ _ htrack]
    exact mergeFold_nodup db _ _ _ htrack hsemnodup
  refine ⟨hcombnodup, ?_, ?_, ?_, ?_⟩
  · intro p hp
    obtain ⟨r, hr, hfields⟩ := mergeFold_covers db (fun _ => .semantic) S ([], [])
      rfl (by simpa using hnodup) p hp
    obtain ⟨extra, hextra⟩ := mergeFold_prefix db
      (fun s => if s = 1 then .exact else .hash)
      (findSimilarErrors sha256 errorMessage
        { options with limit := some (jsOrNat options.limit 10 -
            (S.foldl (mergeStep db (fun _ => .semantic)) ([], [])).1.length) }
        db)
      (S.foldl (mergeStep db (fun _ => .semantic)) ([], []))
    refine ⟨r, ?_, hfields⟩
    rw [hcombeq, hextra]
    exact List.mem_append_left extra hr
  · simp only [findSimilar]
    have hperm := (stableSort_perm
      (fun r1 r2 => decide (r2.similarity.getD 0 ≤ r1.similarity.getD 0))
      (findSimilarCombined sqrt decodeF sha256 true queryGen errorMessage
        options db)).map (fun r => r.error.row.id)
    have hnd2 := hperm.nodup_iff.mpr hcombnodup
    refine List.Nodup.sublist ?_ hnd2
    exact List.Sublist.map _ (List.take_sublist (jsOrNat options.limit 10) _)
  · simp only [findSimilar]
    have hsorted := stableSort_sorted
      (fun r1 r2 => decide (r2.similarity.getD 0 ≤ r1.similarity.getD 0))
      (fun a b => by
        rcases le_total (b.similarity.getD 0) (a.similarity.getD 0) with h | h
        · exact Or.inl (decide_eq_true h)
        · exact Or.inr (decide_eq_true h))
      (fun a b c hab hbc => by
        rw [decide_eq_true_eq] at *
        exact le_trans hbc hab)
      (findSimilarCombined sqrt decodeF sha256 true queryGen errorMessage
        options db)
    have htake := List.Pairwise.sublist
      (List.take_sublist (jsOrNat options.limit 10) _) hsorted
    exact htake.imp (fun h => by rwa [decide_eq_true_eq] at h)
  · simp only [findSimilar]
    exact List.length_take_le _ _

/-! ## Concrete fixtures for the remaining witnesses and counterexamples -/

/-- A stored error whose fingerprint is `"unknown:x"` under an identity
digest. -/
def werr : ErrorRow :=
  { id := 7, hash := "unknown:x", message := "x", normalizedMessage := "x",
    errorType := "unknown", severity := .low, stackTrace := none, filePath := none,
    projectName := none, occurrenceCount := 1, firstSeenAt := 0, lastSeenAt := 0 }

/-- Its stored embedding: a single float32 whose bit pattern is 1. -/
def wemb : EmbeddingRow :=
  { id := 0, errorId := 7, embedding := [1, 0, 0, 0], model := "mock",
    dimensions := 1 }

/-- A store holding that error and its embedding. -/
def wdb : Db :=
  { emptyDb with
      errors := [werr],
      nextErrorId := 8,
      embeddings := [wemb],
      nextEmbeddingId := 1 }

/-- The bits-to-float decoder of the scenarios: bit pattern 1 decodes
to 5/4, so the stored vector is `[5/4]` and its cosine similarity with
the query `[1]` under `sqrt := id` is 4/5. -/
def wdecode : Nat → ℚ := fun n => if n = 1 then 5 / 4 else 0

/-- The solution-table operations of the C8 witness: one recorded
solution, then two successes and one failure. -/
def w8ops : List SolutionOp :=
  [ .record { errorId := 7, content := "fix", source := "manual" },
    .outcome 0 true, .outcome 0 true, .outcome 0 false ]

section

attribute [local semireducible] Rat.mul Rat.inv Rat.add Rat.sub Rat.ofScientific

/-- C3 (counterexample): for the query `"x"` against `wdb` the
semantic strategy returns the stored error with similarity 4/5 and the
lexical strategy returns the same error with similarity 1, yet the
merged result keeps 4/5 — not the higher of the two scores. -/
theorem findSimilar_highest_score_counterexample :
    findSimilarByEmbedding id wdecode [1]
        { limit := some 5, minSimilarity := some (7 / 10) } wdb =
      .ok [({ row := werr, tags := [] }, 4 / 5)] ∧
      findSimilarErrors (fun s => s) "x" { limit := some 9 } wdb =
        [({ row := werr, tags := [] }, 1)] ∧
      (findSimilar id wdecode (fun s => s) true (.ok [1]) "x" {} wdb).map
          (fun r => (r.error.row.id, r.similarity)) = [(7, some (4 / 5))] ∧
      ¬((4 : ℚ) / 5 = 1) := by
  decide

/-- C3 (witness): the amended merge contract at the concrete store
`wdb`, where the semantic strategy returns the single result
`(werr, 4/5)`. -/
theorem findSimilar_merge_amended_witness :
    ((findSimilarCombined id wdecode (fun s => s) true (.ok [1]) "x" {} wdb).map
        (fun r => r.error.row.id)).Nodup ∧
      (∀ p ∈ [(({ row := werr, tags := [] } : ErrorWithTags), (4 : ℚ) / 5)],
        ∃ r ∈ findSimilarCombined id wdecode (fun s => s) true (.ok [1]) "x" {} wdb,
          r.error = p.1 ∧ r.similarity = some p.2 ∧ r.matchType = .semantic) ∧
      ((findSimilar id wdecode (fun s => s) true (.ok [1]) "x" {} wdb).map
          (fun r => r.error.row.id)).Nodup ∧
      (findSimilar id wdecode (fun s => s) true (.ok [1]) "x" {} wdb).Pairwise
        (fun r1 r2 => r2.similarity.getD 0 ≤ r1.similarity.getD 0) ∧
      (findSimilar id wdecode (fun s => s) true (.ok [1]) "x" {} wdb).length ≤
        jsOrNat ({} : SearchOptions).limit 10 :=
  findSimilar_merge_amended id wdecode (fun s => s) (.ok [1]) "x" {} wdb [1]
    [({ row := werr, tags := [] }, 4 / 5)] (by decide) rfl (by decide) (by decide)

/-- C5 (witness): the exact-match short circuit at the concrete store
`wdb` and query `"x"`, whose fingerprint under the identity digest is
`"unknown:x"`. -/
theorem findSimilarErrors_exact_short_circuit_witness :
    findSimilarErrors (fun s => s) "x"
        { minSimilarity := some 2, limit := some 0 } wdb =
      [({ row := werr, tags := tagNamesOf werr.id wdb }, 1)] ∧
      tagNamesOf werr.id wdb = [] :=
  ⟨findSimilarErrors_exact_short_circuit (fun s => s) "x"
      { minSimilarity := some 2, limit := some 0 } wdb werr (by decide),
    by decide⟩

/-- C7 (witness): the mismatch-skipping contract at the concrete store
`wdb` and the one-dimensional query `[1]`. -/
theorem findSimilarByEmbedding_skips_mismatched_witness :
    ∃ l, findSimilarByEmbedding id wdecode [1] {} wdb = .ok l ∧
      (∀ x ∈ l, ∃ row ∈ wdb.embeddings, row.errorId = x.1.row.id ∧
        ∃ v, bufferToFloatArray wdecode row.embedding = some v ∧
          v.length = ([(1 : ℚ)]).length) ∧
      ∀ row ∈ wdb.embeddings,
        (∀ v, bufferToFloatArray wdecode row.embedding = some v →
          v.length ≠ ([(1 : ℚ)]).length) →
        ∀ x ∈ l, x.1.row.id ≠ row.errorId :=
  findSimilarByEmbedding_skips_mismatched id wdecode [1] {} wdb
    (by
      intro row hr
      simp only [wdb, emptyDb, List.mem_singleton] at hr
      subst hr
      exact ⟨[5 / 4], by decide⟩)
    (by decide)

/-- C8 (witness): recording one solution against `wdb` and reporting
two successes and one failure leaves a consistent table whose single
row has counters `(2, 1)` and stored rate `2/3`. -/
theorem successRate_recomputed_witness :
    RatesConsistent (w8ops.foldl applySolutionOp wdb) ∧
      ((w8ops.foldl applySolutionOp wdb).solutions.map
          (fun s => (s.successCount, s.failureCount, s.successRate))) =
        [(2, 1, mkRat 2 3)] :=
  ⟨successRate_recomputed wdb (by intro r hr; simp [wdb, emptyDb] at hr) w8ops,
    by decide⟩

end

end Automaker
